import Mathlib

/-!
Verification development for the `Classifier` component of the
`engine_components` repository (`src/unnamed/part_001`).

Shallow embedding conventions:

* The repository's `DataMap` class is not part of the excerpt; the spec
  (section 3) describes it as a plain mapping with `get`/`set`/`delete` whose
  keys can be enumerated.  Modelled from the spec: a `DataMap`, as well as a
  JS object used as a dictionary, is embedded as an association list with
  unique keys; `get`/`set`/`delete` become `alGet`/`alSet`/`alDel`, and both
  JS `for..in` enumeration and `Object.keys` become the list of first
  components.
* A JS `Set<number>` is embedded as a duplicate-free `List Nat`; `Set.add`
  becomes `addId`, which appends the element only when it is absent.
* A JS value that is either a string or `undefined` (class names can be
  `undefined`: `relAttrs.Name?.value` in `bySpatialStructure`) is embedded as
  `Option String`, with `none` standing for `undefined`.
* JS exceptions become `Except String`.
* In-place mutation through aliases (e.g. `currentModel.map[fragID].add(...)`
  writing through a reference held into `this.list`) is embedded by threading
  the index and writing the updated substructure back at the same path, which
  is observationally the same because nothing else touches the index between
  the read and the write.
-/

/-- A JS class-name key: a string, or `none` for the JS value `undefined`. -/
abbrev CN := Option String

/-- A JS `Set<number>` of express IDs, kept duplicate-free. -/
abbrev IdSet := List Nat

/-- The `FRAGS.FragmentIdMap` type: a JS object mapping fragment GUIDs to sets of
express IDs. -/
abbrev FragIdMap := List (String × IdSet)

/-- One classification group record, the three-field object literal of the
source with fields `map`, `name` and `id` (`id` is the optional parent
express ID, `none` for JS `null`). -/
structure ClassificationGroup where
  map : FragIdMap
  name : CN
  id : Option Nat
deriving DecidableEq

/-- A classification system: `DataMap` from class name to group record. -/
abbrev ClassificationSystem := List (CN × ClassificationGroup)

/-- The classifier's `list` property: `DataMap` from system name to system. -/
abbrev ClassificationIndex := List (String × ClassificationSystem)

/-- Association-list lookup, the embedding of `Map.get` / object indexing. -/
def alGet {α β : Type} [DecidableEq α] : List (α × β) → α → Option β
  | [], _ => none
  | (k, v) :: t, x => if k = x then some v else alGet t x

/-- Association-list update, the embedding of `Map.set` / object assignment:
replaces the entry when the key is present, appends it otherwise. -/
def alSet {α β : Type} [DecidableEq α] : List (α × β) → α → β → List (α × β)
  | [], x, v => [(x, v)]
  | (k, w) :: t, x, v => if k = x then (x, v) :: t else (k, w) :: alSet t x v

/-- Association-list deletion, the embedding of `Map.delete` / `delete o[k]`
(keys are unique in a JS map, so removing every occurrence of the key is the
same as removing its single entry). -/
def alDel {α β : Type} [DecidableEq α] : List (α × β) → α → List (α × β)
  | [], _ => []
  | (k, v) :: t, x => if k = x then alDel t x else (k, v) :: alDel t x

/-- The JS `Set.add`: appends the id only when it is not already present. -/
def addId (s : IdSet) (n : Nat) : IdSet :=
  if n ∈ s then s else s ++ [n]

theorem alGet_alSet_self {α β : Type} [DecidableEq α] (l : List (α × β)) (k : α) (v : β) :
    alGet (alSet l k v) k = some v := by
  induction l with
  | nil => simp [alGet, alSet]
  | cons p t ih =>
    obtain ⟨a, b⟩ := p
    by_cases hk : a = k
    · simp [alSet, hk, alGet]
    · simp [alSet, hk, alGet, ih]

theorem alGet_alSet_ne {α β : Type} [DecidableEq α] (l : List (α × β)) (k k' : α) (v : β)
    (h : k' ≠ k) : alGet (alSet l k v) k' = alGet l k' := by
  have hkk : ¬ k = k' := fun he => h he.symm
  induction l with
  | nil => simp [alGet, alSet, hkk]
  | cons p t ih =>
    obtain ⟨a, b⟩ := p
    by_cases hk : a = k
    · have h1 : ¬ a = k' := fun he => h (by rw [← he, hk])
      simp [alSet, hk, alGet, hkk, h1]
    · simp [alSet, hk, alGet, ih]

theorem alGet_alDel_self {α β : Type} [DecidableEq α] (l : List (α × β)) (k : α) :
    alGet (alDel l k) k = none := by
  induction l with
  | nil => simp [alGet, alDel]
  | cons p t ih =>
    obtain ⟨a, b⟩ := p
    by_cases hk : a = k
    · simp [alDel, hk, ih]
    · simp [alDel, hk, alGet, ih]

theorem alGet_alDel_ne {α β : Type} [DecidableEq α] (l : List (α × β)) (k k' : α)
    (h : k' ≠ k) : alGet (alDel l k) k' = alGet l k' := by
  induction l with
  | nil => simp [alDel]
  | cons p t ih =>
    obtain ⟨a, b⟩ := p
    by_cases hk : a = k
    · have h1 : ¬ a = k' := fun he => h (by rw [← he, hk])
      have hkk : ¬ k = k' := fun he => h he.symm
      simp [alDel, hk, alGet, h1, hkk, ih]
    · simp [alDel, hk, alGet, ih]

theorem alGet_mem {α β : Type} [DecidableEq α] {l : List (α × β)} {k : α} {v : β}
    (h : alGet l k = some v) : (k, v) ∈ l := by
  induction l with
  | nil => simp [alGet] at h
  | cons p t ih =>
    obtain ⟨a, b⟩ := p
    by_cases hk : a = k
    · subst hk
      simp [alGet] at h
      simp [h]
    · simp [alGet, hk] at h
      exact List.mem_cons_of_mem _ (ih h)

theorem alGet_eq_none_of_not_mem {α β : Type} [DecidableEq α] {l : List (α × β)} {k : α}
    (h : k ∉ l.map Prod.fst) : alGet l k = none := by
  induction l with
  | nil => rfl
  | cons p t ih =>
    obtain ⟨a, b⟩ := p
    have h1 : ¬ a = k := fun he => h (by simp [he])
    have h2 : k ∉ t.map Prod.fst := fun hm => h (by simp [hm])
    simp [alGet, h1, ih h2]

theorem mem_alGet {α β : Type} [DecidableEq α] {l : List (α × β)} {k : α} {v : β}
    (hnd : (l.map Prod.fst).Nodup) (h : (k, v) ∈ l) : alGet l k = some v := by
  induction l with
  | nil => simp at h
  | cons p t ih =>
    obtain ⟨a, b⟩ := p
    rw [List.map_cons, List.nodup_cons] at hnd
    rcases List.mem_cons.mp h with he | ht
    · cases he
      simp [alGet]
    · have ha : ¬ a = k := by
        intro he
        apply hnd.1
        rw [he]
        simpa using List.mem_map_of_mem Prod.fst ht
      simp [alGet, ha, ih hnd.2 ht]

theorem mem_keys_of_alGet {α β : Type} [DecidableEq α] {l : List (α × β)} {k : α} {v : β}
    (h : alGet l k = some v) : k ∈ l.map Prod.fst := by
  simpa using List.mem_map_of_mem Prod.fst (alGet_mem h)

theorem keys_alSet {α β : Type} [DecidableEq α] (l : List (α × β)) (k : α) (v : β) :
    (alSet l k v).map Prod.fst =
      if k ∈ l.map Prod.fst then l.map Prod.fst else l.map Prod.fst ++ [k] := by
  induction l with
  | nil => simp [alSet]
  | cons p t ih =>
    obtain ⟨a, b⟩ := p
    by_cases hk : a = k
    · simp [alSet, hk]
    · have hk' : ¬ k = a := fun he => hk he.symm
      by_cases hm : k ∈ t.map Prod.fst
      · simp [alSet, hk, hk', hm, ih]
      · simp [alSet, hk, hk', hm, ih]

theorem alSet_keys_nodup {α β : Type} [DecidableEq α] {l : List (α × β)} (k : α) (v : β)
    (h : (l.map Prod.fst).Nodup) : ((alSet l k v).map Prod.fst).Nodup := by
  rw [keys_alSet]
  by_cases hm : k ∈ l.map Prod.fst
  · simpa [hm] using h
  · rw [if_neg hm, List.nodup_append]
    refine ⟨h, List.nodup_singleton k, ?_⟩
    intro a ha hb
    rw [List.mem_singleton] at hb
    exact hm (hb ▸ ha)

theorem mem_addId_self (s : IdSet) (n : Nat) : n ∈ addId s n := by
  by_cases h : n ∈ s <;> simp [addId, h]

theorem mem_addId_of {s : IdSet} {m : Nat} (n : Nat) (h : m ∈ s) : m ∈ addId s n := by
  by_cases hn : n ∈ s <;> simp [addId, hn, h]

theorem mem_addId {s : IdSet} {m n : Nat} : m ∈ addId s n ↔ m ∈ s ∨ m = n := by
  by_cases hn : n ∈ s
  · constructor
    · intro h
      exact Or.inl (by simpa [addId, hn] using h)
    · intro h
      rcases h with h | h
      · simpa [addId, hn] using h
      · simp [addId, hn, h]
  · simp [addId, hn]

theorem addId_nodup {s : IdSet} (n : Nat) (h : s.Nodup) : (addId s n).Nodup := by
  by_cases hn : n ∈ s
  · simpa [addId, hn] using h
  · rw [addId, if_neg hn, List.nodup_append]
    refine ⟨h, List.nodup_singleton n, ?_⟩
    intro a ha hb
    rw [List.mem_singleton] at hb
    exact hn (hb ▸ ha)

/-! ## The `find` query (source lines 135–197)

`find(filter?)` without a filter flattens `FragmentsManager.list`; with a
filter it counts, per `(fragment GUID, expressID)` pair, how many
`(filter key, class name)` occurrences matched it, and keeps the pairs whose
count equals the number of filter keys. -/

/-- A `find` filter: the JS object mapping system names to arrays of class
names, embedded as an association list in enumeration order. -/
abbrev FindFilter := List (String × List String)

/-- The intermediate `models` structure of `find`: per fragment GUID, a
`Map` from expressID to its running match count. -/
abbrev CountMap := List (String × List (Nat × Nat))

/-- The `FragmentsManager.list` mapping: fragment GUID to the fragment's `ids` iterable. -/
abbrev FragmentsList := List (String × List Nat)

/-- One `matchCount` update of `find`: `models[guid].set(id, 1)` when absent,
`models[guid].set(id, matchCount + 1)` otherwise. -/
def bumpOne (m : List (Nat × Nat)) (id : Nat) : List (Nat × Nat) :=
  match alGet m id with
  | none => alSet m id 1
  | some c => alSet m id (c + 1)

/-- The `for (const guid in groupData.map)` body of `find`: lazily creates
`models[guid]` and bumps the count of every id of that fragment entry. -/
def addGuidCounts (ms : CountMap) (guid : String) (ids : IdSet) : CountMap :=
  let m0 := match alGet ms guid with
    | none => []
    | some m => m
  alSet ms guid (ids.foldl bumpOne m0)

/-- Processing one matched classification group inside `find`. -/
def addGroupCounts (ms : CountMap) (m : FragIdMap) : CountMap :=
  m.foldl (fun ms p => addGuidCounts ms p.1 p.2) ms

/-- Processing one filter key inside `find`: unknown system names only warn
and contribute nothing; otherwise every listed class name that exists
contributes its fragment map. -/
def findStep (idx : ClassificationIndex) (ms : CountMap) (e : String × List String) :
    CountMap :=
  match alGet idx e.1 with
  | none => ms
  | some _ =>
    e.2.foldl (fun ms v =>
      match alGet idx e.1 with
      | none => ms
      | some sys =>
        match alGet sys (some v) with
        | none => ms
        | some g => addGroupCounts ms g.map) ms

/-- The inner result-building loop of `find` for one fragment GUID.  The
source's `numberOfMatches === undefined` guard cannot fire in this typed
embedding (counts are total naturals), so the `throw` branch is absent. -/
def buildResultInner (n : Nat) (guid : String) (res : FragIdMap) (m : List (Nat × Nat)) :
    FragIdMap :=
  m.foldl (fun res q =>
    if q.2 = n then alSet res guid (addId ((alGet res guid).getD []) q.1) else res) res

/-- The result-building loop of `find`: keeps the pairs whose match count
equals the number of filter keys. -/
def buildResult (n : Nat) (ms : CountMap) : FragIdMap :=
  ms.foldl (fun res p => buildResultInner n p.1 res p.2) []

/-- Function `find(filter?)`, source lines 135–197. -/
def find (fragments : FragmentsList) (idx : ClassificationIndex)
    (filter : Option FindFilter) : FragIdMap :=
  match filter with
  | none => fragments.foldl (fun res p => alSet res p.1 (p.2.foldl addId [])) []
  | some f =>
    let filterCount := f.length
    let ms := f.foldl (findStep idx) []
    buildResult filterCount ms

/-- The ids recorded for a fragment GUID in a `FragmentIdMap` result. -/
def resIds (r : FragIdMap) (guid : String) : IdSet :=
  (alGet r guid).getD []

/-- Number of occurrences of `n` in a list (JS sets hold at most one). -/
def countOcc : List Nat → Nat → Nat
  | [], _ => 0
  | a :: t, n => (if a = n then 1 else 0) + countOcc t n

/-- How many times the class `v` of system `name` counts the pair
`(guid, id)` — `0` when the system, class or fragment entry is absent. -/
def classMatch (idx : ClassificationIndex) (name v : String) (guid : String) (id : Nat) :
    Nat :=
  match alGet idx name with
  | none => 0
  | some sys =>
    match alGet sys (some v) with
    | none => 0
    | some g =>
      match alGet g.map guid with
      | none => 0
      | some ids => countOcc ids id

/-- Whether class `v` of system `name` contains the pair `(guid, id)` — the
spec's notion of a class containing an entity. -/
def classContains (idx : ClassificationIndex) (name v : String) (guid : String) (id : Nat) :
    Bool :=
  match alGet idx name with
  | none => false
  | some sys =>
    match alGet sys (some v) with
    | none => false
    | some g =>
      match alGet g.map guid with
      | none => false
      | some ids => decide (id ∈ ids)

/-- Total contribution of one filter key to the count of `(guid, id)`. -/
def keyMatch (idx : ClassificationIndex) (name : String) (values : List String)
    (guid : String) (id : Nat) : Nat :=
  match values with
  | [] => 0
  | v :: t => classMatch idx name v guid id + keyMatch idx name t guid id

/-- Total match count of `(guid, id)` over a whole filter. -/
def matchTotal (idx : ClassificationIndex) (f : FindFilter) (guid : String) (id : Nat) :
    Nat :=
  match f with
  | [] => 0
  | e :: t => keyMatch idx e.1 e.2 guid id + matchTotal idx t guid id

/-- The running count of `(guid, id)` in the intermediate `models` map. -/
def getCount (ms : CountMap) (guid : String) (id : Nat) : Nat :=
  match alGet ms guid with
  | none => 0
  | some m => (alGet m id).getD 0

/-- Well-formedness of a fragment map as produced by JS objects and sets:
unique GUID keys and duplicate-free id sets. -/
def fragMapWF (m : FragIdMap) : Bool :=
  (m.map Prod.fst).Nodup && m.all (fun p => p.2.Nodup)

/-- Well-formedness of a classification system: unique class keys with
well-formed fragment maps. -/
def systemWF (s : ClassificationSystem) : Bool :=
  (s.map Prod.fst).Nodup && s.all (fun p => fragMapWF p.2.map)

/-- Well-formedness of a classification index: unique system keys with
well-formed systems.  Every index reachable through the JS `Map`/`Set`
operations satisfies this. -/
def indexWF (idx : ClassificationIndex) : Bool :=
  (idx.map Prod.fst).Nodup && idx.all (fun p => systemWF p.2)

/-- Well-formedness of the intermediate count map. -/
def countMapWF (ms : CountMap) : Bool :=
  (ms.map Prod.fst).Nodup && ms.all (fun p => (p.2.map Prod.fst).Nodup)

/-! ## Characterizing `find`'s counting -/

theorem countOcc_pos {l : List Nat} {n : Nat} : 0 < countOcc l n ↔ n ∈ l := by
  induction l with
  | nil => simp [countOcc]
  | cons a t ih =>
    by_cases h : a = n
    · simp [countOcc, h]
    · have h' : ¬ n = a := fun he => h he.symm
      simp [countOcc, h, h', ih]

theorem countOcc_eq_zero {l : List Nat} {n : Nat} (h : n ∉ l) : countOcc l n = 0 := by
  induction l with
  | nil => rfl
  | cons a t ih =>
    have h1 : ¬ a = n := fun he => h (by simp [he])
    have h2 : n ∉ t := fun hm => h (by simp [hm])
    simp [countOcc, h1, ih h2]

theorem countOcc_eq_one_of_nodup {l : List Nat} {n : Nat} (hnd : l.Nodup) (h : n ∈ l) :
    countOcc l n = 1 := by
  induction l with
  | nil => simp at h
  | cons a t ih =>
    rw [List.nodup_cons] at hnd
    rcases List.mem_cons.mp h with he | ht
    · subst he
      simp [countOcc, countOcc_eq_zero hnd.1]
    · have h1 : ¬ a = n := by
        intro he
        exact hnd.1 (he ▸ ht)
      simp [countOcc, h1, ih hnd.2 ht]

theorem getCountInner_bumpOne (m : List (Nat × Nat)) (id0 id : Nat) :
    (alGet (bumpOne m id0) id).getD 0 =
      (alGet m id).getD 0 + (if id = id0 then 1 else 0) := by
  unfold bumpOne
  by_cases h : id = id0
  · subst h
    cases hc : alGet m id with
    | none => simp [hc, alGet_alSet_self]
    | some c => simp [hc, alGet_alSet_self]
  · cases hc : alGet m id0 with
    | none => simp [hc, alGet_alSet_ne _ _ _ _ h, h]
    | some c => simp [hc, alGet_alSet_ne _ _ _ _ h, h]

theorem getCountInner_bumpFold (ids : List Nat) (m : List (Nat × Nat)) (id : Nat) :
    (alGet (ids.foldl bumpOne m) id).getD 0 = (alGet m id).getD 0 + countOcc ids id := by
  induction ids generalizing m with
  | nil => simp [countOcc]
  | cons a t ih =>
    rw [List.foldl_cons, ih, getCountInner_bumpOne]
    by_cases h : id = a
    · simp [countOcc, h]
      omega
    · have h' : ¬ a = id := fun he => h he.symm
      simp [countOcc, h, h']

theorem getCount_addGuidCounts (ms : CountMap) (g : String) (ids : IdSet)
    (g' : String) (id : Nat) :
    getCount (addGuidCounts ms g ids) g' id =
      getCount ms g' id + (if g' = g then countOcc ids id else 0) := by
  unfold addGuidCounts getCount
  by_cases h : g' = g
  · subst h
    cases hc : alGet ms g' with
    | none => simp [hc, alGet_alSet_self, getCountInner_bumpFold, alGet]
    | some m => simp [hc, alGet_alSet_self, getCountInner_bumpFold]
  · cases hc : alGet ms g with
    | none => simp [hc, alGet_alSet_ne _ _ _ _ h, h]
    | some m => simp [hc, alGet_alSet_ne _ _ _ _ h, h]

/-- Per-entry contribution of a fragment map (by entry, not by key lookup). -/
def mapEntriesCnt (m : FragIdMap) (g : String) (id : Nat) : Nat :=
  match m with
  | [] => 0
  | p :: t => (if g = p.1 then countOcc p.2 id else 0) + mapEntriesCnt t g id

theorem getCount_addGroupCounts (m : FragIdMap) (ms : CountMap) (g : String) (id : Nat) :
    getCount (addGroupCounts ms m) g id = getCount ms g id + mapEntriesCnt m g id := by
  induction m generalizing ms with
  | nil => simp [addGroupCounts, mapEntriesCnt]
  | cons p t ih =>
    show getCount (addGroupCounts (addGuidCounts ms p.1 p.2) t) g id = _
    rw [ih, getCount_addGuidCounts, mapEntriesCnt]
    omega

theorem mapEntriesCnt_eq_of_nodup {m : FragIdMap} (hnd : (m.map Prod.fst).Nodup)
    (g : String) (id : Nat) :
    mapEntriesCnt m g id = countOcc ((alGet m g).getD []) id := by
  induction m with
  | nil => simp [mapEntriesCnt, alGet, countOcc]
  | cons p t ih =>
    obtain ⟨a, ids⟩ := p
    rw [List.map_cons, List.nodup_cons] at hnd
    by_cases h : g = a
    · subst h
      have : alGet t g = none := alGet_eq_none_of_not_mem hnd.1
      have ht : mapEntriesCnt t g id = 0 := by
        rw [ih hnd.2, this]
        simp [countOcc]
      simp [mapEntriesCnt, alGet, ht]
    · have h' : ¬ a = g := fun he => h he.symm
      simp [mapEntriesCnt, alGet, h, h', ih hnd.2]

theorem systemWF_of_indexWF {idx : ClassificationIndex} {name : String}
    {sys : ClassificationSystem} (hwf : indexWF idx = true)
    (h : alGet idx name = some sys) : systemWF sys = true := by
  unfold indexWF at hwf
  rw [Bool.and_eq_true] at hwf
  have := List.all_eq_true.mp hwf.2 _ (alGet_mem h)
  exact this

theorem fragMapWF_of_systemWF {sys : ClassificationSystem} {cn : CN}
    {g : ClassificationGroup} (hwf : systemWF sys = true)
    (h : alGet sys cn = some g) : fragMapWF g.map = true := by
  unfold systemWF at hwf
  rw [Bool.and_eq_true] at hwf
  exact List.all_eq_true.mp hwf.2 _ (alGet_mem h)

theorem getCount_classStep (idx : ClassificationIndex) (sys : ClassificationSystem)
    (name : String) (hs : alGet idx name = some sys) (hwf : indexWF idx = true)
    (ms : CountMap) (v : String) (g : String) (id : Nat) :
    getCount (match alGet sys (some v) with
      | none => ms
      | some gr => addGroupCounts ms gr.map) g id =
      getCount ms g id + classMatch idx name v g id := by
  cases hc : alGet sys (some v) with
  | none => simp [classMatch, hs, hc]
  | some gr =>
    rw [getCount_addGroupCounts]
    have hmwf : fragMapWF gr.map = true :=
      fragMapWF_of_systemWF (systemWF_of_indexWF hwf hs) hc
    unfold fragMapWF at hmwf
    rw [Bool.and_eq_true] at hmwf
    rw [mapEntriesCnt_eq_of_nodup (of_decide_eq_true hmwf.1)]
    simp only [classMatch, hs, hc]
    cases alGet gr.map g <;> simp [countOcc]

theorem getCount_valuesFold (idx : ClassificationIndex) (sys : ClassificationSystem)
    (name : String) (hs : alGet idx name = some sys) (hwf : indexWF idx = true)
    (values : List String) (ms : CountMap) (g : String) (id : Nat) :
    getCount (values.foldl (fun ms v =>
        match alGet sys (some v) with
        | none => ms
        | some gr => addGroupCounts ms gr.map) ms) g id =
      getCount ms g id + keyMatch idx name values g id := by
  induction values generalizing ms with
  | nil => simp [keyMatch]
  | cons v t ih =>
    rw [List.foldl_cons, ih, keyMatch,
      getCount_classStep idx sys name hs hwf ms v g id]
    omega

theorem getCount_findStep (idx : ClassificationIndex) (ms : CountMap)
    (e : String × List String) (g : String) (id : Nat) (hwf : indexWF idx = true) :
    getCount (findStep idx ms e) g id = getCount ms g id + keyMatch idx e.1 e.2 g id := by
  obtain ⟨name, values⟩ := e
  unfold findStep
  cases hs : alGet idx name with
  | none =>
    have hk : keyMatch idx name values g id = 0 := by
      induction values with
      | nil => rfl
      | cons v t ih => simp [keyMatch, classMatch, hs, ih]
    simp [hk]
  | some sys => exact getCount_valuesFold idx sys name hs hwf values ms g id

theorem getCount_findFold (idx : ClassificationIndex) (f : FindFilter) (ms : CountMap)
    (g : String) (id : Nat) (hwf : indexWF idx = true) :
    getCount (f.foldl (findStep idx) ms) g id = getCount ms g id + matchTotal idx f g id := by
  induction f generalizing ms with
  | nil => simp [matchTotal]
  | cons e t ih =>
    rw [List.foldl_cons, ih, getCount_findStep idx ms e g id hwf, matchTotal]
    omega

/-! ## Well-formedness of the intermediate count map, and result extraction -/

/-- Well-formedness of the intermediate count map: unique GUID keys and
unique id keys per fragment (automatic for JS objects and `Map`s). -/
def CMWF (ms : CountMap) : Prop :=
  (ms.map Prod.fst).Nodup ∧ ∀ p ∈ ms, (p.2.map Prod.fst).Nodup

theorem mem_alSet_of_mem {α β : Type} [DecidableEq α] {l : List (α × β)} {p : α × β}
    {k : α} {v : β} (h : p ∈ alSet l k v) : p ∈ l ∨ p = (k, v) := by
  induction l with
  | nil =>
    simp [alSet] at h
    right
    simp [h]
  | cons q t ih =>
    obtain ⟨a, b⟩ := q
    by_cases hk : a = k
    · simp [alSet, hk] at h
      rcases h with h | h
      · right
        simp [h]
      · left
        exact List.mem_cons_of_mem _ h
    · simp [alSet, hk] at h
      rcases h with h | h
      · left
        simp [h]
      · rcases ih h with hm | hm
        · left
          exact List.mem_cons_of_mem _ hm
        · right
          exact hm

theorem bumpOne_keys_nodup {m : List (Nat × Nat)} (id : Nat)
    (h : (m.map Prod.fst).Nodup) : ((bumpOne m id).map Prod.fst).Nodup := by
  unfold bumpOne
  cases alGet m id <;> exact alSet_keys_nodup _ _ h

theorem bumpFold_keys_nodup (ids : List Nat) {m : List (Nat × Nat)}
    (h : (m.map Prod.fst).Nodup) : ((ids.foldl bumpOne m).map Prod.fst).Nodup := by
  induction ids generalizing m with
  | nil => exact h
  | cons a t ih => exact ih (bumpOne_keys_nodup a h)

theorem CMWF_addGuidCounts {ms : CountMap} (g : String) (ids : IdSet) (h : CMWF ms) :
    CMWF (addGuidCounts ms g ids) := by
  obtain ⟨h1, h2⟩ := h
  unfold addGuidCounts
  constructor
  · exact alSet_keys_nodup _ _ h1
  · intro p hp
    rcases mem_alSet_of_mem hp with hm | he
    · exact h2 p hm
    · subst he
      apply bumpFold_keys_nodup
      cases hc : alGet ms g with
      | none => simp
      | some m => exact h2 (g, m) (alGet_mem hc)

theorem CMWF_addGroupCounts {ms : CountMap} (m : FragIdMap) (h : CMWF ms) :
    CMWF (addGroupCounts ms m) := by
  induction m generalizing ms with
  | nil => exact h
  | cons p t ih => exact ih (CMWF_addGuidCounts p.1 p.2 h)

theorem CMWF_sysValuesFold (sys0 : ClassificationSystem) (vs : List String)
    {ms : CountMap} (h : CMWF ms) :
    CMWF (vs.foldl (fun ms v =>
      match alGet sys0 (some v) with
      | none => ms
      | some gr => addGroupCounts ms gr.map) ms) := by
  induction vs generalizing ms with
  | nil => exact h
  | cons v t ih =>
    rw [List.foldl_cons]
    apply ih
    cases alGet sys0 (some v) with
    | none => exact h
    | some gr => exact CMWF_addGroupCounts gr.map h

theorem CMWF_findStep {ms : CountMap} (idx : ClassificationIndex)
    (e : String × List String) (h : CMWF ms) : CMWF (findStep idx ms e) := by
  unfold findStep
  cases alGet idx e.1 with
  | none => exact h
  | some sys0 => exact CMWF_sysValuesFold sys0 e.2 h

theorem CMWF_findFold (idx : ClassificationIndex) (f : FindFilter) {ms : CountMap}
    (h : CMWF ms) : CMWF (f.foldl (findStep idx) ms) := by
  induction f generalizing ms with
  | nil => exact h
  | cons e t ih => exact ih (CMWF_findStep idx e h)

theorem resIds_buildResultInner (n : Nat) (guid : String) (res : FragIdMap)
    (m : List (Nat × Nat)) (g : String) (id : Nat) :
    id ∈ resIds (buildResultInner n guid res m) g ↔
      id ∈ resIds res g ∨ (g = guid ∧ (id, n) ∈ m) := by
  induction m generalizing res with
  | nil => simp [buildResultInner]
  | cons q t ih =>
    obtain ⟨qid, qc⟩ := q
    have hstep : buildResultInner n guid res ((qid, qc) :: t) =
        buildResultInner n guid
          (if qc = n then alSet res guid (addId ((alGet res guid).getD []) qid) else res)
          t := rfl
    rw [hstep, ih]
    have hres : id ∈ resIds
        (if qc = n then alSet res guid (addId ((alGet res guid).getD []) qid) else res) g
        ↔ id ∈ resIds res g ∨ (g = guid ∧ qc = n ∧ id = qid) := by
      by_cases hq : qc = n
      · by_cases hg : g = guid
        · subst hg
          rw [if_pos hq]
          unfold resIds
          rw [alGet_alSet_self]
          simp only [Option.getD_some, mem_addId, hq]
          tauto
        · rw [if_pos hq]
          unfold resIds
          rw [alGet_alSet_ne _ _ _ _ hg]
          simp [hg]
      · simp [hq]
    rw [hres]
    simp only [List.mem_cons, Prod.mk.injEq]
    constructor
    · rintro ((h | ⟨hg, hq, hid⟩) | ⟨hg, hm⟩)
      · exact Or.inl h
      · exact Or.inr ⟨hg, Or.inl ⟨hid, hq.symm⟩⟩
      · exact Or.inr ⟨hg, Or.inr hm⟩
    · rintro (h | ⟨hg, (⟨hid, hq⟩ | hm)⟩)
      · exact Or.inl (Or.inl h)
      · exact Or.inl (Or.inr ⟨hg, hq.symm, hid⟩)
      · exact Or.inr ⟨hg, hm⟩

theorem resIds_buildResult (n : Nat) (ms : CountMap) (g : String) (id : Nat) :
    id ∈ resIds (buildResult n ms) g ↔ ∃ m, (g, m) ∈ ms ∧ (id, n) ∈ m := by
  suffices h : ∀ res, id ∈ resIds
      (ms.foldl (fun res p => buildResultInner n p.1 res p.2) res) g ↔
      id ∈ resIds res g ∨ ∃ m, (g, m) ∈ ms ∧ (id, n) ∈ m by
    have h0 := h []
    simpa [buildResult, resIds, alGet] using h0
  intro res
  induction ms generalizing res with
  | nil => simp
  | cons p t ih =>
    obtain ⟨pg, pm⟩ := p
    rw [List.foldl_cons, ih, resIds_buildResultInner]
    simp only [List.mem_cons, Prod.mk.injEq]
    constructor
    · rintro ((h | ⟨hg, hm⟩) | ⟨m, hm, hn⟩)
      · exact Or.inl h
      · exact Or.inr ⟨pm, Or.inl ⟨hg, rfl⟩, hm⟩
      · exact Or.inr ⟨m, Or.inr hm, hn⟩
    · rintro (h | ⟨m, (⟨hg, hm⟩ | hm), hn⟩)
      · exact Or.inl (Or.inl h)
      · exact Or.inl (Or.inr ⟨hg, hm ▸ hn⟩)
      · exact Or.inr ⟨m, hm, hn⟩

/-- Master characterization of filtered `find`: a pair is in the result iff
its total match count equals the number of filter keys. -/
theorem resIds_find_filtered (fl : FragmentsList) (idx : ClassificationIndex)
    (f : FindFilter) (g : String) (id : Nat) (hwf : indexWF idx = true) (hne : f ≠ []) :
    id ∈ resIds (find fl idx (some f)) g ↔ matchTotal idx f g id = f.length := by
  have hfind : find fl idx (some f) = buildResult f.length (f.foldl (findStep idx) []) :=
    rfl
  rw [hfind, resIds_buildResult]
  have hcm : CMWF (f.foldl (findStep idx) []) :=
    CMWF_findFold idx f ⟨List.nodup_nil, by simp⟩
  have hgc : getCount (f.foldl (findStep idx) []) g id = matchTotal idx f g id := by
    have := getCount_findFold idx f [] g id hwf
    simpa [getCount, alGet] using this
  constructor
  · rintro ⟨m, hm, hn⟩
    have h1 : alGet (f.foldl (findStep idx) []) g = some m := mem_alGet hcm.1 hm
    have h2 : alGet m id = some f.length := mem_alGet (hcm.2 (g, m) hm) hn
    rw [← hgc]
    simp [getCount, h1, h2]
  · intro hmt
    have hlen : 0 < f.length := List.length_pos.mpr hne
    have hpos : 0 < getCount (f.foldl (findStep idx) []) g id := by
      rw [hgc, hmt]
      exact hlen
    unfold getCount at hpos
    cases h1 : alGet (f.foldl (findStep idx) []) g with
    | none => rw [h1] at hpos; exact absurd hpos (by simp)
    | some m =>
      rw [h1] at hpos
      have hpos2 : 0 < (alGet m id).getD 0 := hpos
      cases h2 : alGet m id with
      | none => rw [h2] at hpos2; simp at hpos2
      | some c =>
        have hc : c = f.length := by
          have hcc : getCount (f.foldl (findStep idx) []) g id = c := by
            simp [getCount, h1, h2]
          rw [← hmt, ← hgc, hcc]
        exact ⟨m, alGet_mem h1, hc ▸ alGet_mem h2⟩

/-! ## Claim C1: AND across systems, OR within a system -/

theorem classMatch_pos_iff (idx : ClassificationIndex) (name v guid : String) (id : Nat) :
    0 < classMatch idx name v guid id ↔ classContains idx name v guid id = true := by
  unfold classMatch classContains
  cases h1 : alGet idx name with
  | none => simp
  | some sys =>
    cases h2 : alGet sys (some v) with
    | none => simp [h2]
    | some g =>
      cases h3 : alGet g.map guid with
      | none => simp [h2, h3]
      | some ids => simp [h2, h3, countOcc_pos]

theorem keyMatch_pos_iff (idx : ClassificationIndex) (name : String) (values : List String)
    (guid : String) (id : Nat) :
    0 < keyMatch idx name values guid id ↔
      ∃ v ∈ values, classContains idx name v guid id = true := by
  induction values with
  | nil => simp [keyMatch]
  | cons v t ih =>
    have hsplit : 0 < keyMatch idx name (v :: t) guid id ↔
        0 < classMatch idx name v guid id ∨ 0 < keyMatch idx name t guid id := by
      rw [keyMatch]
      omega
    rw [hsplit, classMatch_pos_iff, ih]
    constructor
    · rintro (h | ⟨w, hw, hc⟩)
      · exact ⟨v, List.mem_cons_self _ _, h⟩
      · exact ⟨w, List.mem_cons_of_mem _ hw, hc⟩
    · rintro ⟨w, hw, hc⟩
      rcases List.mem_cons.mp hw with rfl | hw'
      · exact Or.inl hc
      · exact Or.inr ⟨w, hw', hc⟩

theorem matchTotal_le_length (idx : ClassificationIndex) (f : FindFilter)
    (g : String) (id : Nat) (hle : ∀ e ∈ f, keyMatch idx e.1 e.2 g id ≤ 1) :
    matchTotal idx f g id ≤ f.length := by
  induction f with
  | nil => simp [matchTotal]
  | cons e t ih =>
    rw [matchTotal, List.length_cons]
    have h1 := hle e (List.mem_cons_self _ _)
    have h2 := ih (fun x hx => hle x (List.mem_cons_of_mem _ hx))
    omega

theorem matchTotal_eq_length_iff (idx : ClassificationIndex) (f : FindFilter)
    (g : String) (id : Nat) (hle : ∀ e ∈ f, keyMatch idx e.1 e.2 g id ≤ 1) :
    matchTotal idx f g id = f.length ↔ ∀ e ∈ f, 0 < keyMatch idx e.1 e.2 g id := by
  induction f with
  | nil => simp [matchTotal]
  | cons e t ih =>
    have hle' : ∀ x ∈ t, keyMatch idx x.1 x.2 g id ≤ 1 :=
      fun x hx => hle x (List.mem_cons_of_mem _ hx)
    have h1 := hle e (List.mem_cons_self _ _)
    have h2 := matchTotal_le_length idx t g id hle'
    rw [matchTotal, List.length_cons]
    constructor
    · intro hsum
      have hkm : 0 < keyMatch idx e.1 e.2 g id ∧ matchTotal idx t g id = t.length := by
        omega
      intro x hx
      rcases List.mem_cons.mp hx with rfl | hx'
      · exact hkm.1
      · exact ((ih hle').mp hkm.2) x hx'
    · intro hall
      have h0 : 0 < keyMatch idx e.1 e.2 g id := hall e (List.mem_cons_self _ _)
      have ht : matchTotal idx t g id = t.length :=
        (ih hle').mpr (fun x hx => hall x (List.mem_cons_of_mem _ hx))
      omega

/-- Concrete index for the C1 counterexample: one system `s` whose classes
`a` and `b` both contain the pair `("f", 1)`. -/
def c1Index : ClassificationIndex :=
  [("s", [(some "a", ⟨[("f", [1])], some "a", none⟩),
          (some "b", ⟨[("f", [1])], some "b", none⟩)])]

/-- Concrete index for the C1 witness: two systems with one class each, the
pair `("f", 1)` belonging to both. -/
def c1wIndex : ClassificationIndex :=
  [("s1", [(some "a", ⟨[("f", [1])], some "a", none⟩)]),
   ("s2", [(some "b", ⟨[("f", [1])], some "b", none⟩)])]

/-- C1, counterexample.  For the filter mapping `s` to the classes `a` and
`b`, the pair `("f", 1)` belongs to class `a` of system `s` (so the claimed
OR-within-a-system semantics would include it), yet `find` drops it: the
pair is matched twice by the single filter key, and `2` is not the filter
key count `1`. -/
theorem find_and_or_counterexample :
    (∀ e ∈ [("s", ["a", "b"])], ∃ v ∈ e.2, classContains c1Index e.1 v "f" 1 = true) ∧
    1 ∉ resIds (find [] c1Index (some [("s", ["a", "b"])])) "f" := by
  decide

/-- C1 (amended): for a well-formed index and a non-empty filter in which no
pair is matched by more than one listed class occurrence of the same filter
key, `find` returns exactly the pairs that, for every filter key, lie in at
least one of that key's listed classes (AND across systems, OR within each
system's listed classes). -/
theorem find_and_or_semantics (fl : FragmentsList) (idx : ClassificationIndex)
    (f : FindFilter) (guid : String) (id : Nat)
    (hwf : indexWF idx = true) (hne : f ≠ [])
    (hone : ∀ e ∈ f, keyMatch idx e.1 e.2 guid id ≤ 1) :
    id ∈ resIds (find fl idx (some f)) guid ↔
      ∀ e ∈ f, ∃ v ∈ e.2, classContains idx e.1 v guid id = true := by
  rw [resIds_find_filtered fl idx f guid id hwf hne,
    matchTotal_eq_length_iff idx f guid id hone]
  constructor
  · intro h e he
    exact (keyMatch_pos_iff idx e.1 e.2 guid id).mp (h e he)
  · intro h e he
    exact (keyMatch_pos_iff idx e.1 e.2 guid id).mpr (h e he)

/-- C1, witness for the amended theorem at a concrete input: one-class-per-key
filter over two systems, the pair belonging to both sides. -/
theorem find_and_or_semantics_witness :
    indexWF c1wIndex = true ∧ ([("s1", ["a"]), ("s2", ["b"])] : FindFilter) ≠ [] ∧
    (1 ∈ resIds (find [] c1wIndex (some [("s1", ["a"]), ("s2", ["b"])])) "f" ↔
      ∀ e ∈ ([("s1", ["a"]), ("s2", ["b"])] : FindFilter),
        ∃ v ∈ e.2, classContains c1wIndex e.1 v "f" 1 = true) :=
  ⟨by decide, by decide,
    find_and_or_semantics [] c1wIndex [("s1", ["a"]), ("s2", ["b"])] "f" 1
      (by decide) (by decide) (by decide)⟩

/-! ## Claim C10: filters naming an unknown system -/

/-- Concrete index for the C10 counterexample: system `s` with classes `a`
and `b`, both containing the pair `("f", 1)`; no system `u` exists. -/
def c10Index : ClassificationIndex :=
  [("s", [(some "a", ⟨[("f", [1])], some "a", none⟩),
          (some "b", ⟨[("f", [1])], some "b", none⟩)])]

/-- C10, counterexample.  The filter names the unknown system `u`, yet the
result is not empty: the pair `("f", 1)` is counted twice by the single
known key `s` (classes `a` and `b`), reaching the filter key count `2`. -/
theorem find_unknown_counterexample :
    alGet c10Index "u" = none ∧
    find [] c10Index (some [("u", ["x"]), ("s", ["a", "b"])]) = [("f", [1])] ∧
    find [] c10Index (some [("u", ["x"]), ("s", ["a", "b"])]) ≠ [] := by
  decide

theorem keyMatch_eq_zero_of_none (idx : ClassificationIndex) (name : String)
    (values : List String) (guid : String) (id : Nat) (h : alGet idx name = none) :
    keyMatch idx name values guid id = 0 := by
  induction values with
  | nil => rfl
  | cons v t ih => simp [keyMatch, classMatch, h, ih]

theorem classMatch_le_one (idx : ClassificationIndex) (name v guid : String) (id : Nat)
    (hwf : indexWF idx = true) : classMatch idx name v guid id ≤ 1 := by
  unfold classMatch
  cases h1 : alGet idx name with
  | none => simp
  | some sys =>
    cases h2 : alGet sys (some v) with
    | none => simp [h2]
    | some g =>
      cases h3 : alGet g.map guid with
      | none => simp [h2, h3]
      | some ids =>
        have hmwf := fragMapWF_of_systemWF (systemWF_of_indexWF hwf h1) h2
        unfold fragMapWF at hmwf
        rw [Bool.and_eq_true] at hmwf
        have hnd : ids.Nodup :=
          of_decide_eq_true (List.all_eq_true.mp hmwf.2 _ (alGet_mem h3))
        by_cases hm : id ∈ ids
        · simp [h2, h3, countOcc_eq_one_of_nodup hnd hm]
        · simp [h2, h3, countOcc_eq_zero hm]

theorem keyMatch_le_one_of_single (idx : ClassificationIndex) (name : String)
    (values : List String) (guid : String) (id : Nat) (hwf : indexWF idx = true)
    (hlen : values.length ≤ 1) : keyMatch idx name values guid id ≤ 1 := by
  cases values with
  | nil => simp [keyMatch]
  | cons v t =>
    cases t with
    | nil => simpa [keyMatch] using classMatch_le_one idx name v guid id hwf
    | cons w s => simp at hlen

theorem matchTotal_lt_of_unknown (idx : ClassificationIndex) (f : FindFilter)
    (g : String) (id : Nat) (name0 : String) (vs0 : List String)
    (hmem : (name0, vs0) ∈ f) (hunknown : alGet idx name0 = none)
    (hone : ∀ e ∈ f, keyMatch idx e.1 e.2 g id ≤ 1) :
    matchTotal idx f g id < f.length := by
  induction f with
  | nil => simp at hmem
  | cons e t ih =>
    rw [matchTotal, List.length_cons]
    have hone' : ∀ x ∈ t, keyMatch idx x.1 x.2 g id ≤ 1 :=
      fun x hx => hone x (List.mem_cons_of_mem _ hx)
    rcases List.mem_cons.mp hmem with he | ht
    · have he1 : e.1 = name0 := by rw [← he]
      have h0 : keyMatch idx e.1 e.2 g id = 0 :=
        keyMatch_eq_zero_of_none idx e.1 e.2 g id (he1 ▸ hunknown)
      have hb := matchTotal_le_length idx t g id hone'
      omega
    · have h1 := hone e (List.mem_cons_self _ _)
      have h2 := ih ht hone'
      omega

theorem buildResultInner_eq_of_no_match (n : Nat) (guid : String) (res : FragIdMap)
    (m : List (Nat × Nat)) (h : ∀ q ∈ m, q.2 ≠ n) :
    buildResultInner n guid res m = res := by
  induction m generalizing res with
  | nil => rfl
  | cons q t ih =>
    have hq : q.2 ≠ n := h q (List.mem_cons_self _ _)
    have hstep : buildResultInner n guid res (q :: t) =
        buildResultInner n guid
          (if q.2 = n then alSet res guid (addId ((alGet res guid).getD []) q.1) else res)
          t := rfl
    rw [hstep, if_neg hq]
    exact ih res (fun x hx => h x (List.mem_cons_of_mem _ hx))

theorem buildResult_fold_eq (n : Nat) (ms : CountMap) :
    ∀ res, (∀ p ∈ ms, ∀ q ∈ p.2, q.2 ≠ n) →
      ms.foldl (fun res p => buildResultInner n p.1 res p.2) res = res := by
  induction ms with
  | nil =>
    intro res h
    rfl
  | cons p t ih =>
    intro res h
    rw [List.foldl_cons,
      buildResultInner_eq_of_no_match n p.1 res p.2 (h p (List.mem_cons_self _ _))]
    exact ih res (fun x hx => h x (List.mem_cons_of_mem _ hx))

/-- C10 (amended): if some filter key names a system absent from the index
and every filter key lists at most one class name (so no pair can be counted
twice for a single key), `find` returns the empty map: the unknown key keeps
every pair's count strictly below the filter key count. -/
theorem find_unknown_system_empty (fl : FragmentsList) (idx : ClassificationIndex)
    (f : FindFilter) (name0 : String) (vs0 : List String)
    (hwf : indexWF idx = true) (hmem : (name0, vs0) ∈ f)
    (hunknown : alGet idx name0 = none)
    (hsingle : ∀ e ∈ f, e.2.length ≤ 1) :
    find fl idx (some f) = [] := by
  have hfind : find fl idx (some f) = buildResult f.length (f.foldl (findStep idx) []) :=
    rfl
  rw [hfind]
  unfold buildResult
  apply buildResult_fold_eq
  rintro ⟨pg, pm⟩ hp ⟨qid, qc⟩ hq hqn
  have hcm : CMWF (f.foldl (findStep idx) []) :=
    CMWF_findFold idx f ⟨List.nodup_nil, by simp⟩
  have h1 : alGet (f.foldl (findStep idx) []) pg = some pm := mem_alGet hcm.1 hp
  have h2 : alGet pm qid = some qc := mem_alGet (hcm.2 (pg, pm) hp) hq
  have hgc : getCount (f.foldl (findStep idx) []) pg qid = matchTotal idx f pg qid := by
    have := getCount_findFold idx f [] pg qid hwf
    simpa [getCount, alGet] using this
  have hc : getCount (f.foldl (findStep idx) []) pg qid = qc := by
    simp [getCount, h1, h2]
  have hlt := matchTotal_lt_of_unknown idx f pg qid name0 vs0 hmem hunknown
    (fun e he => keyMatch_le_one_of_single idx e.1 e.2 pg qid hwf (hsingle e he))
  rw [hc] at hgc
  omega

/-- Concrete index for the C10 witness: one system `s1` with one class. -/
def c10wIndex : ClassificationIndex :=
  [("s1", [(some "a", ⟨[("f", [1])], some "a", none⟩)])]

/-- C10, witness for the amended theorem: a filter whose keys each list one
class and which names the unknown system `u` yields the empty result. -/
theorem find_unknown_system_empty_witness :
    alGet c10wIndex "u" = none ∧
    find [] c10wIndex (some [("u", ["x"]), ("s1", ["a"])]) = [] :=
  ⟨by decide,
    find_unknown_system_empty [] c10wIndex [("u", ["x"]), ("s1", ["a"])] "u" ["x"]
      (by decide) (by decide) (by decide) (by decide)⟩

/-! ## The model objects consumed by the classifier (spec section 6) -/

/-- The property record returned by `group.getProperties`: `Name` models
`Name?.value` and `PredefinedType` models `PredefinedType?.value` (each a
string or JS `undefined`). -/
structure Props where
  expressID : Nat
  Name : CN
  PredefinedType : CN
deriving DecidableEq

/-- The parts of `FRAGS.FragmentsGroup` the classifier consumes: `data` maps
an expressID to its geometry keys and relation record, `keyFragments` maps a
geometry key to a fragment GUID, `getAllPropertiesIDs` lists the expressIDs
with properties, and `props` is the `getProperties` lookup (the embedding
drops the async wrapper). -/
structure FragmentsGroup where
  data : List (Nat × (List Nat × List Nat))
  keyFragments : List (Nat × String)
  getAllPropertiesIDs : List Nat
  props : List (Nat × Props)
deriving DecidableEq

/-! ## `saveItem` (source lines 524–552) -/

/-- Embeds `if (!system.get(className)) system.set(className, ...)` — lazy class
creation with an empty map and the given parent id. -/
def ensureClass (system : ClassificationSystem) (className : CN)
    (parentID : Option Nat) : ClassificationSystem :=
  match alGet system className with
  | none => alSet system className ⟨[], className, parentID⟩
  | some _ => system

/-- Embeds `if (!group.map[fragmentID]) group.map[fragmentID] = new Set()` — lazy
fragment-entry creation. -/
def ensureFrag (m : FragIdMap) (fragmentID : String) : FragIdMap :=
  match alGet m fragmentID with
  | none => alSet m fragmentID []
  | some _ => m

/-- One iteration of the `for (const key of keys[0])` loop of `saveItem`:
an unresolvable key is skipped silently; otherwise the system is read back,
the class and fragment entries are lazily created and the expressID added.
The `none` branch after the lazy class creation is unreachable (the source's
`if (!group) continue` guard); there the class creation done in place through
the alias persists, which the write-back reproduces. -/
def saveItemKey (kf : List (Nat × String)) (systemName : String) (className : CN)
    (expressID : Nat) (parentID : Option Nat) (idx : ClassificationIndex) (key : Nat) :
    ClassificationIndex :=
  match alGet kf key with
  | none => idx
  | some fragmentID =>
    match alGet idx systemName with
    | none => idx
    | some system =>
      match alGet (ensureClass system className parentID) className with
      | none => alSet idx systemName (ensureClass system className parentID)
      | some g =>
        alSet idx systemName (alSet (ensureClass system className parentID) className
          ⟨alSet (ensureFrag g.map fragmentID) fragmentID
            (addId ((alGet (ensureFrag g.map fragmentID) fragmentID).getD []) expressID),
            g.name, g.id⟩)

/-- Function `saveItem`: ensures the system entry exists (this happens *before* the
data lookup), then returns early when the entity has no data entry, else
processes every geometry key. -/
def saveItem (group : FragmentsGroup) (systemName : String) (className : CN)
    (expressID : Nat) (parentID : Option Nat) (idx : ClassificationIndex) :
    ClassificationIndex :=
  match alGet group.data expressID with
  | none =>
    match alGet idx systemName with
    | none => alSet idx systemName []
    | some _ => idx
  | some keys =>
    keys.1.foldl (saveItemKey group.keyFragments systemName className expressID parentID)
      (match alGet idx systemName with
       | none => alSet idx systemName []
       | some _ => idx)

/-- The id set stored in the fragment map of a group for a GUID. -/
def groupIds (g : ClassificationGroup) (f : String) : IdSet :=
  (alGet g.map f).getD []

/-- The id set recorded in a system under class `cn` for fragment `f`. -/
def sysIds (s : ClassificationSystem) (cn : CN) (f : String) : IdSet :=
  match alGet s cn with
  | none => []
  | some g => groupIds g f

/-- The id set recorded in the index at system `sys`, class `cn`,
fragment `f` (empty whenever a level is absent). -/
def classIds (idx : ClassificationIndex) (sys : String) (cn : CN) (f : String) : IdSet :=
  match alGet idx sys with
  | none => []
  | some s => sysIds s cn f

/-- Whether `idx[sys][cn].map[f]` contains `id`. -/
def memClass (idx : ClassificationIndex) (sys : String) (cn : CN) (f : String)
    (id : Nat) : Bool :=
  decide (id ∈ classIds idx sys cn f)

theorem classIds_sys {idx : ClassificationIndex} {sys : String}
    {s : ClassificationSystem} (hs : alGet idx sys = some s) (cn : CN) (f : String) :
    classIds idx sys cn f = sysIds s cn f := by
  unfold classIds
  rw [hs]

theorem classIds_sys_none {idx : ClassificationIndex} {sys : String}
    (hs : alGet idx sys = none) (cn : CN) (f : String) :
    classIds idx sys cn f = [] := by
  unfold classIds
  rw [hs]

theorem sysIds_cn {s : ClassificationSystem} {cn : CN} {g : ClassificationGroup}
    (hc : alGet s cn = some g) (f : String) : sysIds s cn f = groupIds g f := by
  unfold sysIds
  rw [hc]

theorem sysIds_cn_none {s : ClassificationSystem} {cn : CN}
    (hc : alGet s cn = none) (f : String) : sysIds s cn f = [] := by
  unfold sysIds
  rw [hc]

theorem classIds_alSet_ne {idx : ClassificationIndex} {sys k : String}
    (v : ClassificationSystem) (h : sys ≠ k) (cn : CN) (f : String) :
    classIds (alSet idx k v) sys cn f = classIds idx sys cn f := by
  unfold classIds
  rw [alGet_alSet_ne _ _ _ _ h]

theorem foldl_pres {σ α : Type} (step : σ → α → σ) (P : σ → Prop) (l : List α)
    (hstep : ∀ s a, a ∈ l → P s → P (step s a)) :
    ∀ s, P s → P (l.foldl step s) := by
  induction l with
  | nil =>
    intro s h
    exact h
  | cons a t ih =>
    intro s h
    rw [List.foldl_cons]
    exact ih (fun s b hb => hstep s b (List.mem_cons_of_mem _ hb)) _
      (hstep s a (List.mem_cons_self _ _) h)

theorem foldl_estab {σ α : Type} (step : σ → α → σ) (P Q : σ → Prop) (l : List α) (a : α)
    (ha : a ∈ l)
    (hQ : ∀ s b, Q s → Q (step s b))
    (hest : ∀ s, Q s → P (step s a))
    (hP : ∀ s b, P s → P (step s b)) :
    ∀ s, Q s → P (l.foldl step s) := by
  induction l with
  | nil => simp at ha
  | cons b t ih =>
    intro s hq
    rw [List.foldl_cons]
    rcases List.mem_cons.mp ha with rfl | ha'
    · exact foldl_pres step P t (fun s c _ => hP s c) _ (hest s hq)
    · exact ih ha' _ (hQ s b hq)

theorem alGet_ensureClass_ne (system : ClassificationSystem) (cn className : CN)
    (parentID : Option Nat) (h : cn ≠ className) :
    alGet (ensureClass system className parentID) cn = alGet system cn := by
  unfold ensureClass
  cases alGet system className with
  | none => exact alGet_alSet_ne _ _ _ _ h
  | some g => rfl

theorem ensureClass_of_some {system : ClassificationSystem} {className : CN}
    {g : ClassificationGroup} (parentID : Option Nat)
    (h : alGet system className = some g) :
    ensureClass system className parentID = system := by
  unfold ensureClass
  rw [h]

theorem ensureClass_self (system : ClassificationSystem) (className : CN)
    (parentID : Option Nat) :
    ∃ g, alGet (ensureClass system className parentID) className = some g := by
  unfold ensureClass
  cases hc : alGet system className with
  | none => exact ⟨_, alGet_alSet_self _ _ _⟩
  | some g => exact ⟨g, hc⟩

theorem alGet_ensureFrag_ne (m : FragIdMap) (f fragmentID : String)
    (h : f ≠ fragmentID) : alGet (ensureFrag m fragmentID) f = alGet m f := by
  unfold ensureFrag
  cases alGet m fragmentID with
  | none => exact alGet_alSet_ne _ _ _ _ h
  | some ids => rfl

theorem ensureFrag_of_some {m : FragIdMap} {fragmentID : String} {ids : IdSet}
    (h : alGet m fragmentID = some ids) : ensureFrag m fragmentID = m := by
  unfold ensureFrag
  rw [h]

theorem ensureFrag_getD (m : FragIdMap) (fragmentID : String) :
    (alGet (ensureFrag m fragmentID) fragmentID).getD [] = (alGet m fragmentID).getD [] := by
  unfold ensureFrag
  cases hc : alGet m fragmentID with
  | none => simp [alGet_alSet_self]
  | some ids => rw [hc]

theorem saveItemKey_key_none {kf : List (Nat × String)} {key : Nat}
    (systemName : String) (className : CN) (expressID : Nat) (parentID : Option Nat)
    (idx : ClassificationIndex) (hk : alGet kf key = none) :
    saveItemKey kf systemName className expressID parentID idx key = idx := by
  unfold saveItemKey
  rw [hk]

theorem saveItemKey_sys_none {kf : List (Nat × String)} {key : Nat}
    {fragmentID : String} {systemName : String} (className : CN) (expressID : Nat)
    (parentID : Option Nat) {idx : ClassificationIndex}
    (hk : alGet kf key = some fragmentID) (hs : alGet idx systemName = none) :
    saveItemKey kf systemName className expressID parentID idx key = idx := by
  unfold saveItemKey
  rw [hk, hs]

theorem saveItemKey_eq {kf : List (Nat × String)} {key : Nat} {fragmentID : String}
    {systemName : String} {className : CN} (expressID : Nat) (parentID : Option Nat)
    {idx : ClassificationIndex} {system : ClassificationSystem}
    {g : ClassificationGroup}
    (hk : alGet kf key = some fragmentID) (hs : alGet idx systemName = some system)
    (hcl : alGet (ensureClass system className parentID) className = some g) :
    saveItemKey kf systemName className expressID parentID idx key =
      alSet idx systemName (alSet (ensureClass system className parentID) className
        ⟨alSet (ensureFrag g.map fragmentID) fragmentID
          (addId ((alGet (ensureFrag g.map fragmentID) fragmentID).getD []) expressID),
          g.name, g.id⟩) := by
  unfold saveItemKey
  simp only [hk, hs, hcl]

theorem classIds_saveItemKey_mono (kf : List (Nat × String)) (systemName : String)
    (className : CN) (expressID : Nat) (parentID : Option Nat)
    (idx : ClassificationIndex) (key : Nat) {sys : String} {cn : CN} {f : String}
    {id : Nat} (h : id ∈ classIds idx sys cn f) :
    id ∈ classIds (saveItemKey kf systemName className expressID parentID idx key)
      sys cn f := by
  cases hk : alGet kf key with
  | none =>
    rw [saveItemKey_key_none _ _ _ _ _ hk]
    exact h
  | some fragmentID =>
    cases hs : alGet idx systemName with
    | none =>
      rw [saveItemKey_sys_none _ _ _ hk hs]
      exact h
    | some system =>
      obtain ⟨g, hcl⟩ := ensureClass_self system className parentID
      rw [saveItemKey_eq expressID parentID hk hs hcl]
      by_cases hsys : sys = systemName
      · subst hsys
        rw [classIds_sys hs] at h
        rw [classIds_sys (alGet_alSet_self _ _ _)]
        by_cases hcls : cn = className
        · subst hcls
          cases hcn0 : alGet system cn with
          | none =>
            rw [sysIds_cn_none hcn0] at h
            simp at h
          | some g0 =>
            have hE : ensureClass system cn parentID = system :=
              ensureClass_of_some _ hcn0
            have hg : g0 = g := by
              rw [hE, hcn0] at hcl
              exact Option.some.inj hcl
            rw [sysIds_cn hcn0] at h
            rw [sysIds_cn (alGet_alSet_self _ _ _) f]
            simp only [groupIds] at h ⊢
            by_cases hfr : f = fragmentID
            · subst hfr
              rw [alGet_alSet_self]
              simp only [Option.getD_some]
              rw [ensureFrag_getD, ← hg]
              exact mem_addId_of _ h
            · rw [alGet_alSet_ne _ _ _ _ hfr, alGet_ensureFrag_ne _ _ _ hfr, ← hg]
              exact h
        · unfold sysIds at h ⊢
          rw [alGet_alSet_ne _ _ _ _ hcls, alGet_ensureClass_ne _ _ _ _ hcls]
          exact h
      · rw [classIds_alSet_ne _ hsys]
        exact h

theorem saveItemKey_sys_isSome (kf : List (Nat × String)) (systemName : String)
    (className : CN) (expressID : Nat) (parentID : Option Nat)
    (idx : ClassificationIndex) (key : Nat)
    (h : (alGet idx systemName).isSome) :
    (alGet (saveItemKey kf systemName className expressID parentID idx key)
      systemName).isSome := by
  cases hk : alGet kf key with
  | none =>
    rw [saveItemKey_key_none _ _ _ _ _ hk]
    exact h
  | some fragmentID =>
    cases hs : alGet idx systemName with
    | none =>
      rw [saveItemKey_sys_none _ _ _ hk hs]
      exact h
    | some system =>
      obtain ⟨g, hcl⟩ := ensureClass_self system className parentID
      rw [saveItemKey_eq expressID parentID hk hs hcl, alGet_alSet_self]
      rfl

theorem classIds_saveItemKey_adds (kf : List (Nat × String)) (systemName : String)
    (className : CN) (expressID : Nat) (parentID : Option Nat)
    (idx : ClassificationIndex) (key : Nat) {fragmentID : String}
    (hk : alGet kf key = some fragmentID) (hsys : (alGet idx systemName).isSome) :
    expressID ∈ classIds (saveItemKey kf systemName className expressID parentID idx key)
      systemName className fragmentID := by
  cases hs : alGet idx systemName with
  | none =>
    rw [hs] at hsys
    exact absurd hsys (by simp)
  | some system =>
    obtain ⟨g, hcl⟩ := ensureClass_self system className parentID
    rw [saveItemKey_eq expressID parentID hk hs hcl,
      classIds_sys (alGet_alSet_self _ _ _), sysIds_cn (alGet_alSet_self _ _ _)]
    simp only [groupIds]
    rw [alGet_alSet_self]
    simp only [Option.getD_some]
    exact mem_addId_self _ _

theorem saveItem_ensure_isSome (idx : ClassificationIndex) (systemName : String) :
    (alGet (match alGet idx systemName with
      | none => alSet idx systemName ([] : ClassificationSystem)
      | some _ => idx) systemName).isSome := by
  cases hs : alGet idx systemName with
  | none =>
    show (alGet (alSet idx systemName []) systemName).isSome
    rw [alGet_alSet_self]
    rfl
  | some s =>
    show (alGet idx systemName).isSome
    rw [hs]
    rfl

theorem classIds_saveItem_mono (group : FragmentsGroup) (systemName : String)
    (className : CN) (expressID : Nat) (parentID : Option Nat)
    (idx : ClassificationIndex) {sys : String} {cn : CN} {f : String} {id : Nat}
    (h : id ∈ classIds idx sys cn f) :
    id ∈ classIds (saveItem group systemName className expressID parentID idx)
      sys cn f := by
  have h1 : id ∈ classIds (match alGet idx systemName with
      | none => alSet idx systemName ([] : ClassificationSystem)
      | some _ => idx) sys cn f := by
    cases hs : alGet idx systemName with
    | none =>
      show id ∈ classIds (alSet idx systemName []) sys cn f
      by_cases hsys : sys = systemName
      · subst hsys
        rw [classIds_sys_none hs] at h
        simp at h
      · rw [classIds_alSet_ne _ hsys]
        exact h
    | some s0 =>
      show id ∈ classIds idx sys cn f
      exact h
  unfold saveItem
  cases hd : alGet group.data expressID with
  | none => exact h1
  | some keys =>
    exact foldl_pres _ (fun s => id ∈ classIds s sys cn f) keys.1
      (fun s a _ hp => classIds_saveItemKey_mono _ _ _ _ _ s a hp) _ h1

theorem classIds_saveItem_adds (group : FragmentsGroup) (systemName : String)
    (className : CN) (expressID : Nat) (parentID : Option Nat)
    (idx : ClassificationIndex) {keys rels : List Nat} {k : Nat} {f : String}
    (hdata : alGet group.data expressID = some (keys, rels))
    (hk : k ∈ keys) (hf : alGet group.keyFragments k = some f) :
    expressID ∈ classIds (saveItem group systemName className expressID parentID idx)
      systemName className f := by
  unfold saveItem
  rw [hdata]
  exact foldl_estab _ (fun s => expressID ∈ classIds s systemName className f)
    (fun s => (alGet s systemName).isSome) keys k hk
    (fun s b hq => saveItemKey_sys_isSome _ _ _ _ _ s b hq)
    (fun s hq => classIds_saveItemKey_adds _ _ _ _ _ s k hf hq)
    (fun s b hp => classIds_saveItemKey_mono _ _ _ _ _ s b hp) _
    (saveItem_ensure_isSome idx systemName)

/-! ## Claim C5: `saveItem` on an entity without a data entry -/

/-- C5, counterexample.  With an empty index and a group whose `data` has no
entry for expressID `5`, `saveItem` is not a no-op: it creates the (empty)
system entry `s` before the data lookup returns early. -/
theorem saveItem_no_data_counterexample :
    saveItem ⟨[], [], [], []⟩ "s" (some "c") 5 none [] = [("s", [])] ∧
    ([("s", [])] : ClassificationIndex) ≠ [] ∧
    alGet (⟨[], [], [], []⟩ : FragmentsGroup).data 5 = none := by
  decide

/-- C5 (amended): when the entity has no entry in `group.data`, `saveItem`
leaves the index unchanged when the system already exists, and otherwise
changes it only by creating the empty system entry; in neither case is a
class or fragment entry created. -/
theorem saveItem_no_data (group : FragmentsGroup) (systemName : String) (className : CN)
    (expressID : Nat) (parentID : Option Nat) (idx : ClassificationIndex)
    (hdata : alGet group.data expressID = none) :
    (∀ s, alGet idx systemName = some s →
      saveItem group systemName className expressID parentID idx = idx) ∧
    (alGet idx systemName = none →
      saveItem group systemName className expressID parentID idx =
        alSet idx systemName ([] : ClassificationSystem)) := by
  constructor
  · intro s hs
    unfold saveItem
    rw [hdata, hs]
  · intro hs
    unfold saveItem
    rw [hdata, hs]

/-- C5, witness: at a concrete input the theorem yields the exact no-op
(system already present). -/
theorem saveItem_no_data_witness :
    alGet (⟨[], [], [], []⟩ : FragmentsGroup).data 7 = none ∧
    saveItem ⟨[], [], [], []⟩ "s" (some "c") 7 none [("s", [])] = [("s", [])] :=
  ⟨by decide,
    (saveItem_no_data ⟨[], [], [], []⟩ "s" (some "c") 7 none [("s", [])]
      (by decide)).1 [] (by decide)⟩

/-! ## `byModel` (source lines 212–234) and claim C2 -/

/-- The geometry-key loop body of `byModel`: unresolvable keys are skipped
(`if (!fragID) continue`), otherwise the fragment entry is lazily created in
the current model's class and the expressID added. -/
def byModelKey (kf : List (Nat × String)) (expressID : Nat) (cm : ClassificationGroup)
    (key : Nat) : ClassificationGroup :=
  match alGet kf key with
  | none => cm
  | some fragID =>
    ⟨alSet (ensureFrag cm.map fragID) fragID
      (addId ((alGet (ensureFrag cm.map fragID) fragID).getD []) expressID),
      cm.name, cm.id⟩

/-- One `group.data` entry processed by `byModel`. -/
def byModelEntry (kf : List (Nat × String)) (cm : ClassificationGroup)
    (ed : Nat × (List Nat × List Nat)) : ClassificationGroup :=
  ed.2.1.foldl (byModelKey kf ed.1) cm

/-- Embeds `if (!this.list.get("models")) this.list.set("models", new DataMap())`. -/
def ensureModels (idx : ClassificationIndex) : ClassificationIndex :=
  match alGet idx "models" with
  | none => alSet idx "models" []
  | some _ => idx

/-- Function `byModel(modelID, group)`: ensures the `"models"` system and the class
named after the model (record `name = modelID`, `id = null`), then adds every
resolvable `(fragment, expressID)` pair of `group.data` to that class.  The
`none` branches mirror the source's unreachable `if (!...) return` guards. -/
def byModel (modelID : String) (group : FragmentsGroup) (idx : ClassificationIndex) :
    ClassificationIndex :=
  match alGet (ensureModels idx) "models" with
  | none => ensureModels idx
  | some mc =>
    match alGet (ensureClass mc (some modelID) none) (some modelID) with
    | none => alSet (ensureModels idx) "models" (ensureClass mc (some modelID) none)
    | some cm =>
      alSet (ensureModels idx) "models"
        (alSet (ensureClass mc (some modelID) none) (some modelID)
          (group.data.foldl (byModelEntry group.keyFragments) cm))

theorem byModel_empty (modelID : String) (group : FragmentsGroup) :
    byModel modelID group [] =
      [("models", [(some modelID,
        group.data.foldl (byModelEntry group.keyFragments)
          ⟨[], some modelID, none⟩)])] := by
  unfold byModel ensureModels ensureClass
  simp [alGet, alSet]

theorem groupIds_byModelKey (kf : List (Nat × String)) (e : Nat) (key : Nat)
    (cm : ClassificationGroup) (f : String) (id : Nat) :
    id ∈ groupIds (byModelKey kf e cm key) f ↔
      id ∈ groupIds cm f ∨ (id = e ∧ alGet kf key = some f) := by
  unfold byModelKey
  cases hk : alGet kf key with
  | none => simp
  | some fragID =>
    by_cases hfr : f = fragID
    · subst hfr
      show id ∈ groupIds _ f ↔ _
      unfold groupIds
      rw [alGet_alSet_self]
      simp only [Option.getD_some]
      rw [ensureFrag_getD, mem_addId]
      simp [groupIds]
    · show id ∈ groupIds _ f ↔ _
      unfold groupIds
      rw [alGet_alSet_ne _ _ _ _ hfr, alGet_ensureFrag_ne _ _ _ hfr]
      have : ¬ fragID = f := fun h => hfr h.symm
      simp [groupIds, this]

theorem groupIds_byModelKeys (kf : List (Nat × String)) (e : Nat) (keys : List Nat)
    (cm : ClassificationGroup) (f : String) (id : Nat) :
    id ∈ groupIds (keys.foldl (byModelKey kf e) cm) f ↔
      id ∈ groupIds cm f ∨ (id = e ∧ ∃ k ∈ keys, alGet kf k = some f) := by
  induction keys generalizing cm with
  | nil => simp
  | cons k t ih =>
    rw [List.foldl_cons, ih, groupIds_byModelKey]
    constructor
    · rintro ((h | ⟨rfl, hk⟩) | ⟨rfl, w, hw, hf⟩)
      · exact Or.inl h
      · exact Or.inr ⟨rfl, k, List.mem_cons_self _ _, hk⟩
      · exact Or.inr ⟨rfl, w, List.mem_cons_of_mem _ hw, hf⟩
    · rintro (h | ⟨rfl, w, hw, hf⟩)
      · exact Or.inl (Or.inl h)
      · rcases List.mem_cons.mp hw with rfl | hw'
        · exact Or.inl (Or.inr ⟨rfl, hf⟩)
        · exact Or.inr ⟨rfl, w, hw', hf⟩

theorem groupIds_byModelFold (kf : List (Nat × String))
    (data : List (Nat × (List Nat × List Nat))) (cm : ClassificationGroup)
    (f : String) (id : Nat) :
    id ∈ groupIds (data.foldl (byModelEntry kf) cm) f ↔
      id ∈ groupIds cm f ∨
        ∃ ed ∈ data, ed.1 = id ∧ ∃ k ∈ ed.2.1, alGet kf k = some f := by
  induction data generalizing cm with
  | nil => simp
  | cons ed t ih =>
    rw [List.foldl_cons, ih]
    show (id ∈ groupIds (ed.2.1.foldl (byModelKey kf ed.1) cm) f ∨ _) ↔ _
    rw [groupIds_byModelKeys]
    constructor
    · rintro ((h | ⟨rfl, w, hw, hf⟩) | ⟨x, hx, rfl, w, hw, hf⟩)
      · exact Or.inl h
      · exact Or.inr ⟨ed, List.mem_cons_self _ _, rfl, w, hw, hf⟩
      · exact Or.inr ⟨x, List.mem_cons_of_mem _ hx, rfl, w, hw, hf⟩
    · rintro (h | ⟨x, hx, rfl, w, hw, hf⟩)
      · exact Or.inl (Or.inl h)
      · rcases List.mem_cons.mp hx with rfl | hx'
        · exact Or.inl (Or.inr ⟨rfl, w, hw, hf⟩)
        · exact Or.inr ⟨x, hx', rfl, w, hw, hf⟩

theorem mem_ensureFrag {m : FragIdMap} {fragID : String} {p : String × IdSet}
    (h : p ∈ ensureFrag m fragID) : p ∈ m ∨ p = (fragID, []) := by
  unfold ensureFrag at h
  cases hc : alGet m fragID with
  | none =>
    rw [hc] at h
    exact mem_alSet_of_mem h
  | some ids =>
    rw [hc] at h
    exact Or.inl h

theorem ensureFrag_keys_nodup {m : FragIdMap} (fragID : String)
    (h : (m.map Prod.fst).Nodup) : ((ensureFrag m fragID).map Prod.fst).Nodup := by
  unfold ensureFrag
  cases alGet m fragID with
  | none => exact alSet_keys_nodup _ _ h
  | some ids => exact h

theorem ensureFrag_getD_nodup {m : FragIdMap} (fragID : String)
    (h : ∀ p ∈ m, p.2.Nodup) :
    ((alGet (ensureFrag m fragID) fragID).getD []).Nodup := by
  rw [ensureFrag_getD]
  cases hc : alGet m fragID with
  | none => simp
  | some ids => simpa using h _ (alGet_mem hc)

/-- Well-formedness of a fragment map, in `Prop` form. -/
def FragMapWFP (m : FragIdMap) : Prop :=
  (m.map Prod.fst).Nodup ∧ ∀ p ∈ m, p.2.Nodup

theorem FragMapWFP_byModelKey (kf : List (Nat × String)) (e : Nat) (key : Nat)
    {cm : ClassificationGroup} (h : FragMapWFP cm.map) :
    FragMapWFP (byModelKey kf e cm key).map := by
  unfold byModelKey
  cases hk : alGet kf key with
  | none => exact h
  | some fragID =>
    constructor
    · exact alSet_keys_nodup _ _ (ensureFrag_keys_nodup fragID h.1)
    · intro p hp
      rcases mem_alSet_of_mem hp with hm | he
      · rcases mem_ensureFrag hm with hm' | he'
        · exact h.2 p hm'
        · rw [he']
          simp
      · rw [he]
        exact addId_nodup _ (ensureFrag_getD_nodup fragID h.2)

theorem FragMapWFP_byModelFold (kf : List (Nat × String))
    (data : List (Nat × (List Nat × List Nat))) {cm : ClassificationGroup}
    (h : FragMapWFP cm.map) :
    FragMapWFP ((data.foldl (byModelEntry kf) cm).map) := by
  refine foldl_pres (byModelEntry kf) (fun c => FragMapWFP c.map) data ?_ cm h
  intro c ed _ hc
  unfold byModelEntry
  refine foldl_pres (byModelKey kf ed.1) (fun c => FragMapWFP c.map) ed.2.1 ?_ c hc
  intro c k _ hck
  exact FragMapWFP_byModelKey kf ed.1 k hck

theorem groupIds_nodup {cg : ClassificationGroup} (h : ∀ p ∈ cg.map, p.2.Nodup)
    (f : String) : (groupIds cg f).Nodup := by
  unfold groupIds
  cases hc : alGet cg.map f with
  | none => simp
  | some ids => simpa using h _ (alGet_mem hc)

theorem indexWF_singleton (sys : String) (cn : CN) (cg : ClassificationGroup)
    (h : FragMapWFP cg.map) : indexWF [(sys, [(cn, cg)])] = true := by
  have hfm : fragMapWF cg.map = true := by
    unfold fragMapWF
    rw [Bool.and_eq_true]
    refine ⟨decide_eq_true h.1, ?_⟩
    rw [List.all_eq_true]
    intro p hp
    exact decide_eq_true (h.2 p hp)
  have hsys : systemWF [(cn, cg)] = true := by
    unfold systemWF
    rw [Bool.and_eq_true]
    refine ⟨decide_eq_true (by simp), ?_⟩
    rw [List.all_eq_true]
    intro p hp
    rw [List.mem_singleton] at hp
    rw [hp]
    exact hfm
  unfold indexWF
  rw [Bool.and_eq_true]
  refine ⟨decide_eq_true (by simp), ?_⟩
  rw [List.all_eq_true]
  intro p hp
  rw [List.mem_singleton] at hp
  rw [hp]
  exact hsys

theorem classMatch_eq_countOcc (idx : ClassificationIndex) (name v guid : String)
    (id : Nat) :
    classMatch idx name v guid id = countOcc (classIds idx name (some v) guid) id := by
  unfold classMatch classIds sysIds groupIds
  cases h1 : alGet idx name with
  | none => simp [countOcc]
  | some sys =>
    cases h2 : alGet sys (some v) with
    | none => simp [h2, countOcc]
    | some g =>
      cases h3 : alGet g.map guid with
      | none => simp [h2, h3, countOcc]
      | some ids => simp [h2, h3]

theorem matchTotal_single (idx : ClassificationIndex) (name v guid : String) (id : Nat) :
    matchTotal idx [(name, [v])] guid id = classMatch idx name v guid id := by
  show keyMatch idx name [v] guid id + matchTotal idx [] guid id = _
  show classMatch idx name v guid id + keyMatch idx name [] guid id +
    matchTotal idx [] guid id = _
  show classMatch idx name v guid id + 0 + 0 = _
  omega

/-- C2: starting from an empty index, `byModel` then `find` over the
`models` filter returns exactly the pairs present in the model's data: an
id is in the result for fragment `guid` iff some data entry carries that
expressID together with a geometry key resolving to `guid` through
`keyFragments`. -/
theorem byModel_find_roundtrip (fl : FragmentsList) (modelID : String)
    (group : FragmentsGroup) (guid : String) (id : Nat) :
    id ∈ resIds (find fl (byModel modelID group [])
        (some [("models", [modelID])])) guid ↔
      ∃ ed ∈ group.data, ed.1 = id ∧
        ∃ k ∈ ed.2.1, alGet group.keyFragments k = some guid := by
  rw [byModel_empty]
  have hwfm : FragMapWFP ((group.data.foldl (byModelEntry group.keyFragments)
      ⟨[], some modelID, none⟩).map) :=
    FragMapWFP_byModelFold group.keyFragments group.data ⟨by simp, by simp⟩
  have hmem : id ∈ groupIds (group.data.foldl (byModelEntry group.keyFragments)
      ⟨[], some modelID, none⟩) guid ↔
      ∃ ed ∈ group.data, ed.1 = id ∧
        ∃ k ∈ ed.2.1, alGet group.keyFragments k = some guid := by
    rw [groupIds_byModelFold]
    simp [groupIds, alGet]
  generalize hCM : group.data.foldl (byModelEntry group.keyFragments)
    ⟨[], some modelID, none⟩ = CM at hwfm hmem ⊢
  rw [resIds_find_filtered fl _ _ guid id
    (indexWF_singleton "models" (some modelID) CM hwfm) (by simp)]
  rw [matchTotal_single, classMatch_eq_countOcc]
  have h1 : alGet [("models", [(some modelID, CM)])] "models" =
      some [(some modelID, CM)] := by
    simp [alGet]
  have h2 : alGet [(some modelID, CM)] (some modelID) = some CM := by
    simp [alGet]
  rw [classIds_sys h1, sysIds_cn h2]
  have hnd : (groupIds CM guid).Nodup := groupIds_nodup hwfm.2 guid
  constructor
  · intro hc
    refine hmem.mp (countOcc_pos.mp ?_)
    rw [hc]
    simp
  · intro hex
    have hone := countOcc_eq_one_of_nodup hnd (hmem.mpr hex)
    simpa using hone

/-! ## `remove` (source lines 110–120) and `onFragmentsDisposed`
(source lines 66–93): claims C3, C4, C6 -/

/-- One system processed by `remove(guid)`: deletes the guid entry from every
class's fragment map.  The source's `if (!system) return` cannot fire when
iterating the keys of the mapping (every enumerated key is present), so the
`none` branch is unreachable. -/
def removeStep (guid : String) (idx : ClassificationIndex) (systemName : String) :
    ClassificationIndex :=
  match alGet idx systemName with
  | none => idx
  | some system =>
    alSet idx systemName ((system.map Prod.fst).foldl (fun sys groupName =>
      match alGet sys groupName with
      | none => sys
      | some g => alSet sys groupName ⟨alDel g.map guid, g.name, g.id⟩) system)

/-- Function `remove(guid)`: for every system and every class in it, delete the
fragment entry keyed by `guid`.  No pruning of any kind is performed. -/
def remove (idx : ClassificationIndex) (guid : String) : ClassificationIndex :=
  (idx.map Prod.fst).foldl (removeStep guid) idx

/-- JS `Object.values(group).length` where `group` is the three-field class
record literal: the record always has exactly the own properties `map`,
`name` and `id`, so the value is the constant `3` whatever the fragment map
contains.  This is the emptiness test the disposal handler performs on a
class. -/
def objValuesLen (_ : ClassificationGroup) : Nat := 3

/-- The per-class body of the disposal handler's else branch: delete every
listed fragment id from the class's map, then delete the class if
`Object.values(group).length === 0` — a check on the three-field record,
which is never `0`. -/
def disposeClassScanStep (fragmentIDs : List String) (sys : ClassificationSystem)
    (groupName : CN) : ClassificationSystem :=
  match alGet sys groupName with
  | none => sys
  | some g =>
    if objValuesLen ⟨fragmentIDs.foldl alDel g.map, g.name, g.id⟩ = 0 then
      alDel (alSet sys groupName ⟨fragmentIDs.foldl alDel g.map, g.name, g.id⟩)
        groupName
    else
      alSet sys groupName ⟨fragmentIDs.foldl alDel g.map, g.name, g.id⟩

/-- The else branch of the disposal handler over one system: scan the
snapshot of class names. -/
def disposeSystemScan (fragmentIDs : List String) (system : ClassificationSystem) :
    ClassificationSystem :=
  (system.map Prod.fst).foldl (disposeClassScanStep fragmentIDs) system

/-- The groupID-matches branch of the disposal handler: delete the class
named `groupID`, then delete the system when it has no classes left. -/
def disposeSystemMatch (groupID : String) (idx : ClassificationIndex)
    (systemName : String) (system : ClassificationSystem) : ClassificationIndex :=
  if (alDel system (some groupID)).length = 0 then
    alDel (alSet idx systemName (alDel system (some groupID))) systemName
  else
    alSet idx systemName (alDel system (some groupID))

/-- One system processed by `onFragmentsDisposed`. -/
def disposeStep (groupID : String) (fragmentIDs : List String)
    (idx : ClassificationIndex) (systemName : String) : ClassificationIndex :=
  match alGet idx systemName with
  | none => idx
  | some system =>
    if (some groupID) ∈ system.map Prod.fst then
      disposeSystemMatch groupID idx systemName system
    else
      alSet idx systemName (disposeSystemScan fragmentIDs system)

/-- Function `onFragmentsDisposed(data)`: iterate the snapshot of system names and
process each system. -/
def onFragmentsDisposed (idx : ClassificationIndex) (groupID : String)
    (fragmentIDs : List String) : ClassificationIndex :=
  (idx.map Prod.fst).foldl (disposeStep groupID fragmentIDs) idx

theorem disposeStep_none (groupID : String) (fragmentIDs : List String)
    (idx : ClassificationIndex) (k : String) (h : alGet idx k = none) :
    disposeStep groupID fragmentIDs idx k = idx := by
  unfold disposeStep
  rw [h]

theorem disposeStep_some (groupID : String) (fragmentIDs : List String)
    (idx : ClassificationIndex) (k : String) {system : ClassificationSystem}
    (h : alGet idx k = some system) :
    disposeStep groupID fragmentIDs idx k =
      if (some groupID) ∈ system.map Prod.fst then
        disposeSystemMatch groupID idx k system
      else
        alSet idx k (disposeSystemScan fragmentIDs system) := by
  unfold disposeStep
  simp only [h]

theorem disposeStep_other (groupID : String) (fragmentIDs : List String)
    (idx : ClassificationIndex) (k s : String) (h : s ≠ k) :
    alGet (disposeStep groupID fragmentIDs idx k) s = alGet idx s := by
  cases hk : alGet idx k with
  | none => rw [disposeStep_none _ _ _ _ hk]
  | some system =>
    rw [disposeStep_some _ _ _ _ hk]
    by_cases hmem : (some groupID) ∈ system.map Prod.fst
    · rw [if_pos hmem]
      unfold disposeSystemMatch
      by_cases hlen : (alDel system (some groupID)).length = 0
      · rw [if_pos hlen, alGet_alDel_ne _ _ _ h, alGet_alSet_ne _ _ _ _ h]
      · rw [if_neg hlen, alGet_alSet_ne _ _ _ _ h]
    · rw [if_neg hmem, alGet_alSet_ne _ _ _ _ h]

/-- C6 (amended): the only pruning the classifier performs.  When a disposal
notification's `groupID` names an existing class of a system and deleting
that class leaves the system without classes, the whole system is removed
from the index. -/
theorem disposal_prunes_emptied_system (idx : ClassificationIndex) (groupID : String)
    (fragmentIDs : List String) (sysName : String) (system : ClassificationSystem)
    (hwf : (idx.map Prod.fst).Nodup)
    (hs : alGet idx sysName = some system)
    (hmem : (some groupID) ∈ system.map Prod.fst)
    (hempty : alDel system (some groupID) = []) :
    alGet (onFragmentsDisposed idx groupID fragmentIDs) sysName = none := by
  unfold onFragmentsDisposed
  have hmemk : sysName ∈ idx.map Prod.fst := mem_keys_of_alGet hs
  obtain ⟨l1, l2, hsplit⟩ := List.append_of_mem hmemk
  rw [hsplit] at hwf
  rw [List.nodup_append] at hwf
  obtain ⟨nd1, nd2, disj⟩ := hwf
  rw [List.nodup_cons] at nd2
  have hn1 : sysName ∉ l1 := fun h1 => disj h1 (List.mem_cons_self _ _)
  have hn2 : sysName ∉ l2 := nd2.1
  rw [hsplit, List.foldl_append, List.foldl_cons]
  have hpres1 : alGet (l1.foldl (disposeStep groupID fragmentIDs) idx) sysName =
      some system := by
    refine foldl_pres _ (fun s => alGet s sysName = some system) l1 ?_ idx hs
    intro s a ha hp
    have hne : sysName ≠ a := fun he => hn1 (he ▸ ha)
    rw [disposeStep_other _ _ _ _ _ hne]
    exact hp
  have hstep : alGet (disposeStep groupID fragmentIDs
      (l1.foldl (disposeStep groupID fragmentIDs) idx) sysName) sysName = none := by
    rw [disposeStep_some _ _ _ _ hpres1, if_pos hmem]
    unfold disposeSystemMatch
    rw [hempty]
    simp only [List.length_nil, if_pos rfl]
    exact alGet_alDel_self _ _
  refine foldl_pres _ (fun s => alGet s sysName = none) l2 ?_ _ hstep
  intro s a ha hp
  have hne : sysName ≠ a := fun he => hn2 (he ▸ ha)
  rw [disposeStep_other _ _ _ _ _ hne]
  exact hp

/-- C6, witness: disposing the group whose identifier names the only class
of the only system removes that system entirely. -/
theorem disposal_prunes_emptied_system_witness :
    alGet [("sys", [(some "c",
        (⟨[("f", [1])], some "c", none⟩ : ClassificationGroup))])] "sys" =
      some [(some "c", ⟨[("f", [1])], some "c", none⟩)] ∧
    alGet (onFragmentsDisposed
      [("sys", [(some "c", (⟨[("f", [1])], some "c", none⟩ : ClassificationGroup))])]
      "c" []) "sys" = none :=
  ⟨by decide,
    disposal_prunes_emptied_system _ "c" [] "sys"
      [(some "c", ⟨[("f", [1])], some "c", none⟩)]
      (by decide) (by decide) (by decide) (by decide)⟩

/-- Whether the index holds a dead entry: a system with no classes or a
class whose fragment map is empty. -/
def hasDeadEntry (idx : ClassificationIndex) : Bool :=
  idx.any (fun p => p.2.isEmpty || p.2.any (fun q => q.2.map.isEmpty))

/-- C6, counterexample.  `remove` empties the only class's fragment map and
leaves the empty class (and its system) in the index, violating the claimed
no-dead-entries invariant. -/
theorem remove_leaves_dead_entry :
    hasDeadEntry [("sys", [(some "c",
      (⟨[("f", [1])], some "c", none⟩ : ClassificationGroup))])] = false ∧
    remove [("sys", [(some "c",
      (⟨[("f", [1])], some "c", none⟩ : ClassificationGroup))])] "f" =
      [("sys", [(some "c", ⟨[], some "c", none⟩)])] ∧
    hasDeadEntry [("sys", [(some "c",
      (⟨[], some "c", none⟩ : ClassificationGroup))])] = true := by
  decide

/-- C3: evaluation at the failing input.  A disposal notification whose
`groupID` matches no class name deletes the listed fragments from every
class map, but the emptiness check `Object.values(group).length === 0` tests
the three-field record and never fires, so the emptied class (and its
system) are left in the index instead of being pruned. -/
theorem disposal_no_class_pruning :
    onFragmentsDisposed [("sys", [(some "c",
      (⟨[("f", [1])], some "c", none⟩ : ClassificationGroup))])] "other" ["f"] =
      [("sys", [(some "c", ⟨[], some "c", none⟩)])] ∧
    objValuesLen ⟨[], some "c", none⟩ = 3 := by
  decide

/-- C4: evaluation at the failing input.  `remove` deletes the fragment
entry everywhere and prunes nothing — and the disposal notification for the
same fragment produces exactly the same non-pruned index, so the claimed
asymmetry (disposal pruning the emptied class/system) does not hold. -/
theorem remove_vs_disposal_no_asymmetry :
    remove [("sys", [(some "c",
      (⟨[("f", [1])], some "c", none⟩ : ClassificationGroup))])] "f" =
      [("sys", [(some "c", ⟨[], some "c", none⟩)])] ∧
    onFragmentsDisposed [("sys", [(some "c",
      (⟨[("f", [1])], some "c", none⟩ : ClassificationGroup))])] "zzz" ["f"] =
      [("sys", [(some "c", ⟨[], some "c", none⟩)])] := by
  decide

/-! ## `byPredefinedType` (source lines 249–290): claims C8, C9 -/

/-- JS `String(x)` applied to a string-or-undefined value:
`String(undefined)` is the literal string `undefined`. -/
def jsString : CN → String
  | some s => s
  | none => "undefined"

/-- JS `.toUpperCase()`: uppercase every character (written character-wise
rather than through `String.toUpper`, whose position-based recursion does
not reduce in the kernel; the two agree character for character). -/
def jsToUpper (s : String) : String :=
  ⟨s.data.map Char.toUpper⟩

/-- Embeds `if (!this.list.get(name)) this.list.set(name, new DataMap())`. -/
def ensureSystem (idx : ClassificationIndex) (name : String) : ClassificationIndex :=
  match alGet idx name with
  | none => alSet idx name []
  | some _ => idx

theorem ensureSystem_isSome (idx : ClassificationIndex) (name : String) :
    (alGet (ensureSystem idx name) name).isSome := by
  unfold ensureSystem
  cases hs : alGet idx name with
  | none =>
    show (alGet (alSet idx name []) name).isSome
    rw [alGet_alSet_self]
    rfl
  | some s =>
    show (alGet idx name).isSome
    rw [hs]
    rfl

/-- Fold with JS-exception propagation: the first thrown error aborts. -/
def exFold {α : Type}
    (step : ClassificationIndex → α → Except String ClassificationIndex) :
    ClassificationIndex → List α → Except String ClassificationIndex
  | idx, [] => Except.ok idx
  | idx, a :: l =>
    match step idx a with
    | Except.error e => Except.error e
    | Except.ok idx2 => exFold step idx2 l

/-- The in-place `currentType.map[fragmentID].add(entity.expressID)` update
(with lazy creation of the fragment entry), written back through the alias
into the `predefinedTypes` system.  The `none` branches are unreachable: the
class was ensured through the same alias just before the pass. -/
def bptAddAt (pt : CN) (fragmentID : String) (eid : Nat)
    (idx : ClassificationIndex) : ClassificationIndex :=
  match alGet idx "predefinedTypes" with
  | none => idx
  | some cts =>
    match alGet cts pt with
    | none => idx
    | some ct =>
      alSet idx "predefinedTypes" (alSet cts pt
        ⟨alSet (ensureFrag ct.map fragmentID) fragmentID
          (addId ((alGet (ensureFrag ct.map fragmentID) fragmentID).getD []) eid),
          ct.name, ct.id⟩)

/-- One geometry key inside `byPredefinedType`'s data pass: unlike
`saveItem`, an unresolvable key throws `Fragment ID not found!`. -/
def bptKeyStep (group : FragmentsGroup) (pt : CN) (eid : Nat)
    (idx : ClassificationIndex) (key : Nat) : Except String ClassificationIndex :=
  match alGet group.keyFragments key with
  | none => Except.error "Fragment ID not found!"
  | some fragmentID => Except.ok (bptAddAt pt fragmentID eid idx)

/-- The full pass over `group.data` performed for one found property
entity: every entry's geometry keys are processed. -/
def bptDataPass (group : FragmentsGroup) (pt : CN) (eid : Nat)
    (idx : ClassificationIndex) : Except String ClassificationIndex :=
  exFold (fun idx ed => exFold (bptKeyStep group pt eid) idx ed.2.1) idx group.data

/-- One property id processed by `byPredefinedType`: look the entity up
(absent entities are skipped), compute
`String(entity.PredefinedType?.value).toUpperCase()`, lazily create the class
(record `name` = the type string, `id` = null) and run the data pass. -/
def bptStep (group : FragmentsGroup) (idx : ClassificationIndex) (id : Nat) :
    Except String ClassificationIndex :=
  match alGet group.props id with
  | none => Except.ok idx
  | some entity =>
    match alGet idx "predefinedTypes" with
    | none => Except.ok idx
    | some cts =>
      match alGet (ensureClass cts (some (jsToUpper (jsString entity.PredefinedType)))
          none) (some (jsToUpper (jsString entity.PredefinedType))) with
      | none =>
        Except.ok (alSet idx "predefinedTypes"
          (ensureClass cts (some (jsToUpper (jsString entity.PredefinedType))) none))
      | some _ =>
        bptDataPass group (some (jsToUpper (jsString entity.PredefinedType)))
          entity.expressID
          (alSet idx "predefinedTypes"
            (ensureClass cts (some (jsToUpper (jsString entity.PredefinedType))) none))

/-- Function `byPredefinedType(group)`: ensure the `predefinedTypes` system, then
process every id of `getAllPropertiesIDs`.  On a throw the `Except.error`
carries the message; the partial in-place mutations of the JS object are not
modelled because no claim depends on the post-throw state. -/
def byPredefinedType (group : FragmentsGroup) (idx : ClassificationIndex) :
    Except String ClassificationIndex :=
  match alGet (ensureSystem idx "predefinedTypes") "predefinedTypes" with
  | none => Except.ok (ensureSystem idx "predefinedTypes")
  | some _ =>
    exFold (bptStep group) (ensureSystem idx "predefinedTypes")
      group.getAllPropertiesIDs

theorem exFold_error_of_mem_inv {α : Type}
    (step : ClassificationIndex → α → Except String ClassificationIndex)
    (Q : ClassificationIndex → Prop) (l : List α) (a : α) (ha : a ∈ l)
    (hQ : ∀ s b s2, Q s → step s b = Except.ok s2 → Q s2)
    (herr : ∀ s, Q s → ∃ msg, step s a = Except.error msg) :
    ∀ s, Q s → ∃ msg, exFold step s l = Except.error msg := by
  induction l with
  | nil => simp at ha
  | cons b t ih =>
    intro s hq
    rcases List.mem_cons.mp ha with rfl | ha'
    · obtain ⟨msg, hmsg⟩ := herr s hq
      refine ⟨msg, ?_⟩
      unfold exFold
      rw [hmsg]
    · cases hb : step s b with
      | error e2 =>
        refine ⟨e2, ?_⟩
        unfold exFold
        rw [hb]
      | ok s2 =>
        obtain ⟨msg, hmsg⟩ := ih ha' s2 (hQ s b s2 hq hb)
        refine ⟨msg, ?_⟩
        unfold exFold
        rw [hb]
        exact hmsg

theorem exFold_ok_pres {α : Type}
    (step : ClassificationIndex → α → Except String ClassificationIndex)
    (P : ClassificationIndex → Prop) (l : List α)
    (hstep : ∀ s b s2, P s → step s b = Except.ok s2 → P s2) :
    ∀ s s2, P s → exFold step s l = Except.ok s2 → P s2 := by
  induction l with
  | nil =>
    intro s s2 hp h
    have h2 : (Except.ok s : Except String ClassificationIndex) = Except.ok s2 := h
    cases h2
    exact hp
  | cons b t ih =>
    intro s s2 hp h
    unfold exFold at h
    cases hb : step s b with
    | error e =>
      rw [hb] at h
      have h2 : (Except.error e : Except String ClassificationIndex) = Except.ok s2 := h
      exact Except.noConfusion h2
    | ok s3 =>
      rw [hb] at h
      exact ih s3 s2 (hstep s b s3 hp hb) h

theorem exFold_ok_estab {α : Type}
    (step : ClassificationIndex → α → Except String ClassificationIndex)
    (P Q : ClassificationIndex → Prop) (l : List α) (a : α) (ha : a ∈ l)
    (hQ : ∀ s b s2, Q s → step s b = Except.ok s2 → Q s2)
    (hest : ∀ s s2, Q s → step s a = Except.ok s2 → P s2)
    (hP : ∀ s b s2, P s → step s b = Except.ok s2 → P s2) :
    ∀ s s2, Q s → exFold step s l = Except.ok s2 → P s2 := by
  induction l with
  | nil =>
    intro s s2 _ _
    simp at ha
  | cons b t ih =>
    intro s s2 hq h
    unfold exFold at h
    cases hb : step s b with
    | error e =>
      rw [hb] at h
      have h2 : (Except.error e : Except String ClassificationIndex) = Except.ok s2 := h
      exact Except.noConfusion h2
    | ok s3 =>
      rw [hb] at h
      rcases List.mem_cons.mp ha with rfl | ha'
      · exact exFold_ok_pres step P t hP s3 s2 (hest s s3 hq hb) h
      · exact ih ha' s3 s2 (hQ s b s3 hq hb) h

theorem bptAddAt_no_sys (pt : CN) (fragmentID : String) (eid : Nat)
    (idx : ClassificationIndex) (h : alGet idx "predefinedTypes" = none) :
    bptAddAt pt fragmentID eid idx = idx := by
  unfold bptAddAt
  rw [h]

theorem bptAddAt_no_class {cts : ClassificationSystem} (pt : CN) (fragmentID : String)
    (eid : Nat) (idx : ClassificationIndex)
    (h1 : alGet idx "predefinedTypes" = some cts) (h2 : alGet cts pt = none) :
    bptAddAt pt fragmentID eid idx = idx := by
  unfold bptAddAt
  simp only [h1, h2]

theorem bptAddAt_eq {cts : ClassificationSystem} {ct : ClassificationGroup} (pt : CN)
    (fragmentID : String) (eid : Nat) (idx : ClassificationIndex)
    (h1 : alGet idx "predefinedTypes" = some cts) (h2 : alGet cts pt = some ct) :
    bptAddAt pt fragmentID eid idx =
      alSet idx "predefinedTypes" (alSet cts pt
        ⟨alSet (ensureFrag ct.map fragmentID) fragmentID
          (addId ((alGet (ensureFrag ct.map fragmentID) fragmentID).getD []) eid),
          ct.name, ct.id⟩) := by
  unfold bptAddAt
  simp only [h1, h2]

theorem classIds_bptAddAt_mono (pt : CN) (fragmentID : String) (eid : Nat)
    (idx : ClassificationIndex) {sys : String} {cn : CN} {f : String} {id : Nat}
    (h : id ∈ classIds idx sys cn f) :
    id ∈ classIds (bptAddAt pt fragmentID eid idx) sys cn f := by
  cases h1 : alGet idx "predefinedTypes" with
  | none =>
    rw [bptAddAt_no_sys _ _ _ _ h1]
    exact h
  | some cts =>
    cases h2 : alGet cts pt with
    | none =>
      rw [bptAddAt_no_class _ _ _ _ h1 h2]
      exact h
    | some ct =>
      rw [bptAddAt_eq _ _ _ _ h1 h2]
      by_cases hsys : sys = "predefinedTypes"
      · subst hsys
        rw [classIds_sys h1] at h
        rw [classIds_sys (alGet_alSet_self _ _ _)]
        by_cases hcls : cn = pt
        · subst hcls
          rw [sysIds_cn h2] at h
          rw [sysIds_cn (alGet_alSet_self _ _ _)]
          simp only [groupIds] at h ⊢
          by_cases hfr : f = fragmentID
          · subst hfr
            rw [alGet_alSet_self]
            simp only [Option.getD_some]
            rw [ensureFrag_getD]
            exact mem_addId_of _ h
          · rw [alGet_alSet_ne _ _ _ _ hfr, alGet_ensureFrag_ne _ _ _ hfr]
            exact h
        · unfold sysIds at h ⊢
          rw [alGet_alSet_ne _ _ _ _ hcls]
          exact h
      · rw [classIds_alSet_ne _ hsys]
        exact h

theorem classIds_bptAddAt_adds {cts : ClassificationSystem} {ct : ClassificationGroup}
    (pt : CN) (fragmentID : String) (eid : Nat) (idx : ClassificationIndex)
    (h1 : alGet idx "predefinedTypes" = some cts) (h2 : alGet cts pt = some ct) :
    eid ∈ classIds (bptAddAt pt fragmentID eid idx) "predefinedTypes" pt fragmentID := by
  rw [bptAddAt_eq _ _ _ _ h1 h2, classIds_sys (alGet_alSet_self _ _ _),
    sysIds_cn (alGet_alSet_self _ _ _)]
  simp only [groupIds]
  rw [alGet_alSet_self]
  simp only [Option.getD_some]
  exact mem_addId_self _ _

/-- The `predefinedTypes` system and the class `pt` in it both exist. -/
def HasPT (pt : CN) (s : ClassificationIndex) : Prop :=
  ∃ cts, alGet s "predefinedTypes" = some cts ∧ (alGet cts pt).isSome

theorem HasPT_bptAddAt (pt : CN) (fragmentID : String) (eid : Nat)
    (idx : ClassificationIndex) (h : HasPT pt idx) :
    HasPT pt (bptAddAt pt fragmentID eid idx) := by
  obtain ⟨cts, h1, h2⟩ := h
  cases hct : alGet cts pt with
  | none =>
    rw [hct] at h2
    exact absurd h2 (by simp)
  | some ct =>
    rw [bptAddAt_eq _ _ _ _ h1 hct]
    refine ⟨alSet cts pt _, alGet_alSet_self _ _ _, ?_⟩
    rw [alGet_alSet_self]
    rfl

theorem bptKeyStep_ok_cases {group : FragmentsGroup} {pt : CN} {eid : Nat}
    {s s2 : ClassificationIndex} {k : Nat}
    (h : bptKeyStep group pt eid s k = Except.ok s2) :
    ∃ fragmentID, alGet group.keyFragments k = some fragmentID ∧
      s2 = bptAddAt pt fragmentID eid s := by
  unfold bptKeyStep at h
  cases hk : alGet group.keyFragments k with
  | none =>
    rw [hk] at h
    have h2 : (Except.error "Fragment ID not found!" : Except String ClassificationIndex)
        = Except.ok s2 := h
    exact Except.noConfusion h2
  | some fragmentID =>
    rw [hk] at h
    have h2 : (Except.ok (bptAddAt pt fragmentID eid s) :
        Except String ClassificationIndex) = Except.ok s2 := h
    refine ⟨fragmentID, rfl, ?_⟩
    cases h2
    rfl

theorem HasPT_bptKeyStep {group : FragmentsGroup} {pt : CN} {eid : Nat}
    (s : ClassificationIndex) (k : Nat) (s2 : ClassificationIndex)
    (h : HasPT pt s) (hok : bptKeyStep group pt eid s k = Except.ok s2) :
    HasPT pt s2 := by
  obtain ⟨fragmentID, hk, rfl⟩ := bptKeyStep_ok_cases hok
  exact HasPT_bptAddAt pt fragmentID eid s h

theorem classIds_bptKeyStep_mono {group : FragmentsGroup} {pt : CN} {eid : Nat}
    {sys : String} {cn : CN} {f : String} {id : Nat}
    (s : ClassificationIndex) (k : Nat) (s2 : ClassificationIndex)
    (h : id ∈ classIds s sys cn f) (hok : bptKeyStep group pt eid s k = Except.ok s2) :
    id ∈ classIds s2 sys cn f := by
  obtain ⟨fragmentID, hk, rfl⟩ := bptKeyStep_ok_cases hok
  exact classIds_bptAddAt_mono pt fragmentID eid s h

theorem bptDataPass_mem (group : FragmentsGroup) (pt : CN) (eid : Nat)
    {e0 : Nat} {keys rels : List Nat} {k : Nat} {f : String}
    (hmem : (e0, (keys, rels)) ∈ group.data) (hkmem : k ∈ keys)
    (hk : alGet group.keyFragments k = some f) :
    ∀ s s2, HasPT pt s → bptDataPass group pt eid s = Except.ok s2 →
      eid ∈ classIds s2 "predefinedTypes" pt f := by
  unfold bptDataPass
  refine exFold_ok_estab _ (fun s => eid ∈ classIds s "predefinedTypes" pt f)
    (HasPT pt) group.data (e0, (keys, rels)) hmem ?_ ?_ ?_
  · intro s b s2 hq hok
    exact exFold_ok_pres _ (HasPT pt) b.2.1
      (fun s c s2 hp h => HasPT_bptKeyStep s c s2 hp h) s s2 hq hok
  · intro s s2 hq hok
    refine exFold_ok_estab _ (fun s => eid ∈ classIds s "predefinedTypes" pt f)
      (HasPT pt) keys k hkmem ?_ ?_ ?_ s s2 hq hok
    · intro s c s2 hp h
      exact HasPT_bptKeyStep s c s2 hp h
    · intro s s2 hq2 hok2
      obtain ⟨fragmentID, hk2, rfl⟩ := bptKeyStep_ok_cases hok2
      rw [hk] at hk2
      obtain ⟨cts, h1, h2⟩ := hq2
      cases hct : alGet cts pt with
      | none =>
        rw [hct] at h2
        exact absurd h2 (by simp)
      | some ct =>
        have hf : fragmentID = f := (Option.some.inj hk2).symm
        rw [← hf]
        exact classIds_bptAddAt_adds pt fragmentID eid s h1 hct
    · intro s c s2 hp h
      exact classIds_bptKeyStep_mono s c s2 hp h
  · intro s b s2 hp hok
    exact exFold_ok_pres _ (fun s => eid ∈ classIds s "predefinedTypes" pt f) b.2.1
      (fun s c s2 hp2 h => classIds_bptKeyStep_mono s c s2 hp2 h) s s2 hp hok

theorem bptStep_no_entity (group : FragmentsGroup) (s : ClassificationIndex) (pid : Nat)
    (h : alGet group.props pid = none) : bptStep group s pid = Except.ok s := by
  unfold bptStep
  rw [h]

theorem bptStep_no_sys (group : FragmentsGroup) (s : ClassificationIndex) (pid : Nat)
    {entity : Props} (h1 : alGet group.props pid = some entity)
    (h2 : alGet s "predefinedTypes" = none) : bptStep group s pid = Except.ok s := by
  unfold bptStep
  simp only [h1, h2]

theorem bptStep_eq (group : FragmentsGroup) (s : ClassificationIndex) (pid : Nat)
    {entity : Props} {cts : ClassificationSystem} {g : ClassificationGroup}
    (h1 : alGet group.props pid = some entity)
    (h2 : alGet s "predefinedTypes" = some cts)
    (hcl : alGet (ensureClass cts (some (jsToUpper (jsString entity.PredefinedType))) none)
      (some (jsToUpper (jsString entity.PredefinedType))) = some g) :
    bptStep group s pid =
      bptDataPass group (some (jsToUpper (jsString entity.PredefinedType)))
        entity.expressID
        (alSet s "predefinedTypes"
          (ensureClass cts (some (jsToUpper (jsString entity.PredefinedType))) none)) := by
  unfold bptStep
  simp only [h1, h2, hcl]

theorem bptStep_isSome (group : FragmentsGroup) :
    ∀ (s : ClassificationIndex) (pid : Nat) (s2 : ClassificationIndex),
      (alGet s "predefinedTypes").isSome → bptStep group s pid = Except.ok s2 →
      (alGet s2 "predefinedTypes").isSome := by
  intro s pid s2 hq hok
  cases hent : alGet group.props pid with
  | none =>
    rw [bptStep_no_entity group s pid hent] at hok
    have h2 : (Except.ok s : Except String ClassificationIndex) = Except.ok s2 := hok
    cases h2
    exact hq
  | some entity =>
    cases hcts : alGet s "predefinedTypes" with
    | none =>
      rw [hcts] at hq
      exact absurd hq (by simp)
    | some cts =>
      obtain ⟨g, hcl⟩ := ensureClass_self cts
        (some (jsToUpper (jsString entity.PredefinedType))) none
      rw [bptStep_eq group s pid hent hcts hcl] at hok
      have hstart : (alGet (alSet s "predefinedTypes"
          (ensureClass cts (some (jsToUpper (jsString entity.PredefinedType))) none))
          "predefinedTypes").isSome := by
        rw [alGet_alSet_self]
        rfl
      unfold bptDataPass at hok
      refine exFold_ok_pres _ (fun s => (alGet s "predefinedTypes").isSome) group.data
        ?_ _ s2 hstart hok
      intro s3 b s4 hp h
      refine exFold_ok_pres _ (fun s => (alGet s "predefinedTypes").isSome) b.2.1
        ?_ s3 s4 hp h
      intro s5 c s6 hp2 h2
      obtain ⟨fragmentID, hkc, rfl⟩ := bptKeyStep_ok_cases h2
      cases hp1 : alGet s5 "predefinedTypes" with
      | none =>
        rw [hp1] at hp2
        exact absurd hp2 (by simp)
      | some cts2 =>
        cases hct2 : alGet cts2 (some (jsToUpper (jsString entity.PredefinedType))) with
        | none =>
          rw [bptAddAt_no_class _ _ _ _ hp1 hct2, hp1]
          rfl
        | some ct2 =>
          rw [bptAddAt_eq _ _ _ _ hp1 hct2, alGet_alSet_self]
          rfl

theorem classIds_bptStep_mono (group : FragmentsGroup) {sys : String} {cn : CN}
    {f : String} {id : Nat} :
    ∀ (s : ClassificationIndex) (pid : Nat) (s2 : ClassificationIndex),
      id ∈ classIds s sys cn f → bptStep group s pid = Except.ok s2 →
      id ∈ classIds s2 sys cn f := by
  intro s pid s2 hp hok
  cases hent : alGet group.props pid with
  | none =>
    rw [bptStep_no_entity group s pid hent] at hok
    have h2 : (Except.ok s : Except String ClassificationIndex) = Except.ok s2 := hok
    cases h2
    exact hp
  | some entity =>
    cases hcts : alGet s "predefinedTypes" with
    | none =>
      rw [bptStep_no_sys group s pid hent hcts] at hok
      have h2 : (Except.ok s : Except String ClassificationIndex) = Except.ok s2 := hok
      cases h2
      exact hp
    | some cts =>
      obtain ⟨g, hcl⟩ := ensureClass_self cts
        (some (jsToUpper (jsString entity.PredefinedType))) none
      rw [bptStep_eq group s pid hent hcts hcl] at hok
      have hp1 : id ∈ classIds (alSet s "predefinedTypes"
          (ensureClass cts (some (jsToUpper (jsString entity.PredefinedType))) none))
          sys cn f := by
        by_cases hsys : sys = "predefinedTypes"
        · subst hsys
          rw [classIds_sys hcts] at hp
          rw [classIds_sys (alGet_alSet_self _ _ _)]
          by_cases hcls : cn = some (jsToUpper (jsString entity.PredefinedType))
          · rw [hcls] at hp ⊢
            cases hc : alGet cts (some (jsToUpper (jsString entity.PredefinedType))) with
            | none =>
              rw [sysIds_cn_none hc] at hp
              simp at hp
            | some g0 =>
              rw [ensureClass_of_some _ hc]
              exact hp
          · unfold sysIds at hp ⊢
            rw [alGet_ensureClass_ne _ _ _ _ hcls]
            exact hp
        · rw [classIds_alSet_ne _ hsys]
          exact hp
      unfold bptDataPass at hok
      refine exFold_ok_pres _ (fun s => id ∈ classIds s sys cn f) group.data
        ?_ _ s2 hp1 hok
      intro s3 b s4 hp3 h
      refine exFold_ok_pres _ (fun s => id ∈ classIds s sys cn f) b.2.1
        ?_ s3 s4 hp3 h
      intro s5 c s6 hp4 h2
      exact classIds_bptKeyStep_mono s5 c s6 hp4 h2

theorem bptStep_est (group : FragmentsGroup) (pid : Nat) (entity : Props)
    {e0 : Nat} {keys rels : List Nat} {k : Nat} {f : String}
    (hent : alGet group.props pid = some entity)
    (hmem : (e0, (keys, rels)) ∈ group.data) (hkmem : k ∈ keys)
    (hk : alGet group.keyFragments k = some f) :
    ∀ (s s2 : ClassificationIndex), (alGet s "predefinedTypes").isSome →
      bptStep group s pid = Except.ok s2 →
      entity.expressID ∈ classIds s2 "predefinedTypes"
        (some (jsToUpper (jsString entity.PredefinedType))) f := by
  intro s s2 hq hok
  cases hcts : alGet s "predefinedTypes" with
  | none =>
    rw [hcts] at hq
    exact absurd hq (by simp)
  | some cts =>
    obtain ⟨g, hcl⟩ := ensureClass_self cts
      (some (jsToUpper (jsString entity.PredefinedType))) none
    rw [bptStep_eq group s pid hent hcts hcl] at hok
    refine bptDataPass_mem group _ _ hmem hkmem hk _ s2 ?_ hok
    exact ⟨_, alGet_alSet_self _ _ _, by rw [hcl]; rfl⟩

theorem bptStep_error (group : FragmentsGroup) (pid : Nat) (entity : Props)
    {e0 : Nat} {keys rels : List Nat} {k : Nat}
    (hent : alGet group.props pid = some entity)
    (hmem : (e0, (keys, rels)) ∈ group.data) (hkmem : k ∈ keys)
    (hk : alGet group.keyFragments k = none) :
    ∀ s, (alGet s "predefinedTypes").isSome →
      ∃ msg, bptStep group s pid = Except.error msg := by
  intro s hq
  cases hcts : alGet s "predefinedTypes" with
  | none =>
    rw [hcts] at hq
    exact absurd hq (by simp)
  | some cts =>
    obtain ⟨g, hcl⟩ := ensureClass_self cts
      (some (jsToUpper (jsString entity.PredefinedType))) none
    have herr : ∃ msg, bptDataPass group
        (some (jsToUpper (jsString entity.PredefinedType))) entity.expressID
        (alSet s "predefinedTypes" (ensureClass cts
          (some (jsToUpper (jsString entity.PredefinedType))) none)) =
        Except.error msg := by
      unfold bptDataPass
      refine exFold_error_of_mem_inv _ (fun _ => True) group.data (e0, (keys, rels))
        hmem (fun _ _ _ _ _ => trivial) ?_ _ trivial
      intro s2 _
      refine exFold_error_of_mem_inv _ (fun _ => True) keys k hkmem
        (fun _ _ _ _ _ => trivial) ?_ s2 trivial
      intro s3 _
      refine ⟨"Fragment ID not found!", ?_⟩
      unfold bptKeyStep
      rw [hk]
    obtain ⟨msg, hmsg⟩ := herr
    refine ⟨msg, ?_⟩
    rw [bptStep_eq group s pid hent hcts hcl]
    exact hmsg

/-- C8: when a geometry key of some data entry resolves to no fragment
identifier, `byPredefinedType` throws (`Fragment ID not found!`) as soon as
any property entity is found, whereas `saveItem`'s per-key step treats the
same unresolvable key as a silent no-op, leaving the index untouched. -/
theorem predefinedType_vs_saveItem_asymmetry (group : FragmentsGroup)
    (idx : ClassificationIndex) (pid : Nat) (entity : Props) {e0 : Nat}
    {keys rels : List Nat} {k : Nat}
    (hpid : pid ∈ group.getAllPropertiesIDs)
    (hent : alGet group.props pid = some entity)
    (hmem : (e0, (keys, rels)) ∈ group.data)
    (hkmem : k ∈ keys)
    (hk : alGet group.keyFragments k = none) :
    (∃ msg, byPredefinedType group idx = Except.error msg) ∧
    (∀ systemName className expressID parentID idx2,
      saveItemKey group.keyFragments systemName className expressID parentID idx2 k =
        idx2) := by
  constructor
  · unfold byPredefinedType
    cases hsys : alGet (ensureSystem idx "predefinedTypes") "predefinedTypes" with
    | none =>
      have h0 := ensureSystem_isSome idx "predefinedTypes"
      rw [hsys] at h0
      exact absurd h0 (by simp)
    | some s0 =>
      exact exFold_error_of_mem_inv (bptStep group)
        (fun s => (alGet s "predefinedTypes").isSome) group.getAllPropertiesIDs pid
        hpid (bptStep_isSome group)
        (fun s hq => bptStep_error group pid entity hent hmem hkmem hk s hq)
        _ (ensureSystem_isSome idx "predefinedTypes")
  · intro systemName className expressID parentID idx2
    exact saveItemKey_key_none _ _ _ _ _ hk

/-- C8, witness: a concrete group with one found property entity and one
unresolvable geometry key; `byPredefinedType` throws and the `saveItem` key
step is the identity. -/
theorem predefinedType_vs_saveItem_asymmetry_witness :
    (∃ msg, byPredefinedType ⟨[(5, ([3], []))], [], [7],
      [(7, ⟨7, none, some "X"⟩)]⟩ [] = Except.error msg) ∧
    saveItemKey ([] : List (Nat × String)) "s" (some "c") 5 none [] 3 = [] := by
  constructor
  · exact (@predefinedType_vs_saveItem_asymmetry
      ⟨[(5, ([3], []))], [], [7], [(7, ⟨7, none, some "X"⟩)]⟩ [] 7 ⟨7, none, some "X"⟩
      5 [3] [] 3
      (by decide) (by decide) (by decide) (by decide) (by decide)).1
  · exact (@predefinedType_vs_saveItem_asymmetry
      ⟨[(5, ([3], []))], [], [7], [(7, ⟨7, none, some "X"⟩)]⟩ [] 7 ⟨7, none, some "X"⟩
      5 [3] [] 3
      (by decide) (by decide) (by decide) (by decide) (by decide)).2 "s" (some "c")
      5 none []

/-- C9: on a successful run, every found property entity's expressID is
recorded under its predefined-type class for *every* fragment identifier
resolvable from the geometry keys of *every* entry of `group.data` — the
whole model's fragments, not only the fragments owning that entity. -/
theorem byPredefinedType_spreads (group : FragmentsGroup)
    (idx idx' : ClassificationIndex) (pid : Nat) (entity : Props) {e0 : Nat}
    {keys rels : List Nat} {k : Nat} {f : String}
    (hok : byPredefinedType group idx = Except.ok idx')
    (hpid : pid ∈ group.getAllPropertiesIDs)
    (hent : alGet group.props pid = some entity)
    (hmem : (e0, (keys, rels)) ∈ group.data)
    (hkmem : k ∈ keys)
    (hk : alGet group.keyFragments k = some f) :
    entity.expressID ∈ classIds idx' "predefinedTypes"
      (some (jsToUpper (jsString entity.PredefinedType))) f := by
  unfold byPredefinedType at hok
  cases hsys : alGet (ensureSystem idx "predefinedTypes") "predefinedTypes" with
  | none =>
    have h0 := ensureSystem_isSome idx "predefinedTypes"
    rw [hsys] at h0
    exact absurd h0 (by simp)
  | some s0 =>
    rw [hsys] at hok
    have hfold : exFold (bptStep group) (ensureSystem idx "predefinedTypes")
        group.getAllPropertiesIDs = Except.ok idx' := hok
    exact exFold_ok_estab (bptStep group)
      (fun s => entity.expressID ∈ classIds s "predefinedTypes"
        (some (jsToUpper (jsString entity.PredefinedType))) f)
      (fun s => (alGet s "predefinedTypes").isSome)
      group.getAllPropertiesIDs pid hpid
      (fun s b s2 hq h => bptStep_isSome group s b s2 hq h)
      (fun s s2 hq h => bptStep_est group pid entity hent hmem hkmem hk s s2 hq h)
      (fun s b s2 hp h => classIds_bptStep_mono group s b s2 hp h)
      _ idx' (ensureSystem_isSome idx "predefinedTypes") hfold

/-- C9, witness: a model with two entities on distinct fragments; the
classified entity `7` is recorded on fragment `g2`, owned solely by the
*other* entity `6`. -/
theorem byPredefinedType_spreads_witness :
    byPredefinedType ⟨[(7, ([3], [])), (6, ([4], []))], [(3, "g1"), (4, "g2")], [7],
        [(7, ⟨7, none, some "wall"⟩)]⟩ [] =
      Except.ok [("predefinedTypes", [(some "WALL",
        ⟨[("g1", [7]), ("g2", [7])], some "WALL", none⟩)])] ∧
    7 ∈ classIds [("predefinedTypes", [(some "WALL",
        (⟨[("g1", [7]), ("g2", [7])], some "WALL", none⟩ : ClassificationGroup))])]
      "predefinedTypes" (some "WALL") "g2" := by
  refine ⟨by rfl, ?_⟩
  exact @byPredefinedType_spreads
    ⟨[(7, ([3], [])), (6, ([4], []))], [(3, "g1"), (4, "g2")], [7],
      [(7, ⟨7, none, some "wall"⟩)]⟩ []
    [("predefinedTypes", [(some "WALL", ⟨[("g1", [7]), ("g2", [7])], some "WALL", none⟩)])]
    7 ⟨7, none, some "wall"⟩ 6 [4] [] 4 "g2"
    (by rfl) (by decide) (by decide) (by decide) (by decide) (by decide)

/-! ## `bySpatialStructure` (source lines 377–462): claim C7 -/

/-- What `bySpatialStructure` consumes from the relations indexer for one
model: the entity iteration order of `relationMaps[model.uuid]` and the
`getEntityRelations` lookup. -/
structure RelIndex where
  entries : List Nat
  rels : Nat → String → Option (List Nat)

/-- The `bySpatialStructure` config object (`useProperties?`, `isolate?`). -/
structure SpatialConfig where
  useProperties : Option Bool
  isolate : Option (List Nat)

/-- Embeds the default: `config.useProperties === undefined` means `true`. -/
def spatialUseProps (cfg : SpatialConfig) : Bool :=
  match cfg.useProperties with
  | none => true
  | some b => b

/-- The `config.isolate` filter: skip the entity when it has no data entry,
no category code (`data[1][1]`), or a category outside the isolate set. -/
def spatialSkip (model : FragmentsGroup) (cfg : SpatialConfig) (expressID : Nat) :
    Bool :=
  match cfg.isolate with
  | none => false
  | some iso =>
    match alGet model.data expressID with
    | none => true
    | some d =>
      match d.2.get? 1 with
      | none => true
      | some category => ! iso.contains category

/-- Class-name resolution for an entity: with properties, its `Name?.value`
(the surrounding pass is skipped when the lookup fails, hence the outer
`Option`); without properties, the expressID rendered as a string. -/
def spatialName (model : FragmentsGroup) (cfg : SpatialConfig) (expressID : Nat) :
    Option CN :=
  if spatialUseProps cfg then
    match alGet model.props expressID with
    | none => none
    | some attrs => some attrs.Name
  else
    some (some (toString expressID))

/-- The `Decomposes` pass of one entity (for spatial items like IFCSPACE):
each spatial parent with a resolvable name receives the entity. -/
def spatialDecomposesPass (model : FragmentsGroup) (ri : RelIndex)
    (cfg : SpatialConfig) (idx : ClassificationIndex) (expressID : Nat) :
    ClassificationIndex :=
  match ri.rels expressID "Decomposes" with
  | none => idx
  | some spatialRels =>
    spatialRels.foldl (fun idx id =>
      match spatialName model cfg id with
      | none => idx
      | some relName =>
        saveItem model "spatialStructures" relName expressID (some id) idx) idx

/-- One contained element: save it under the container's class, then save
every `IsDecomposedBy` sub-part under the same class (nested elements such
as curtain walls). -/
def spatialContainedStep (model : FragmentsGroup) (ri : RelIndex) (relName : CN)
    (expressID : Nat) (idx : ClassificationIndex) (id : Nat) : ClassificationIndex :=
  match ri.rels id "IsDecomposedBy" with
  | none => saveItem model "spatialStructures" relName id (some expressID) idx
  | some dec =>
    dec.foldl (fun idx dID =>
      saveItem model "spatialStructures" relName dID (some expressID) idx)
      (saveItem model "spatialStructures" relName id (some expressID) idx)

/-- One entity of the relation map processed by `bySpatialStructure`.  The
source stores the Decomposes-pass result in a local before the
`ContainsElements` lookup; here that intermediate index is written at each
of its use sites. -/
def spatialEntryStep (model : FragmentsGroup) (ri : RelIndex) (cfg : SpatialConfig)
    (idx : ClassificationIndex) (expressID : Nat) : ClassificationIndex :=
  if spatialSkip model cfg expressID then idx
  else
    match ri.rels expressID "ContainsElements" with
    | none => spatialDecomposesPass model ri cfg idx expressID
    | some rels =>
      match spatialName model cfg expressID with
      | none => spatialDecomposesPass model ri cfg idx expressID
      | some relName =>
        rels.foldl (spatialContainedStep model ri relName expressID)
          (spatialDecomposesPass model ri cfg idx expressID)

/-- The main loop of `bySpatialStructure` over the model's relation map. -/
def bySpatialStructureRun (model : FragmentsGroup) (ri : RelIndex)
    (cfg : SpatialConfig) (idx : ClassificationIndex) : ClassificationIndex :=
  ri.entries.foldl (spatialEntryStep model ri cfg) idx

/-- Function `bySpatialStructure(model, config)`: throws when the model's relations
have not been indexed (the source interpolates the model's name into the
message), otherwise runs the per-entity classification under the system
name `spatialStructures`. -/
def bySpatialStructure (model : FragmentsGroup) (oRi : Option RelIndex)
    (cfg : SpatialConfig) (idx : ClassificationIndex) :
    Except String ClassificationIndex :=
  match oRi with
  | none =>
    Except.error
      "Classifier: model relations have to exists to group by spatial structure."
  | some ri => Except.ok (bySpatialStructureRun model ri cfg idx)

theorem classIds_spatialDecomposesPass_mono (model : FragmentsGroup) (ri : RelIndex)
    (cfg : SpatialConfig) {sys : String} {cn : CN} {f : String} {id : Nat} :
    ∀ s b, id ∈ classIds s sys cn f →
      id ∈ classIds (spatialDecomposesPass model ri cfg s b) sys cn f := by
  intro s b hp
  unfold spatialDecomposesPass
  cases hdr : ri.rels b "Decomposes" with
  | none => exact hp
  | some srs =>
    refine foldl_pres _ (fun st => id ∈ classIds st sys cn f) srs ?_ s hp
    intro st a _ hps
    cases hn : spatialName model cfg a with
    | none => exact hps
    | some rn => exact classIds_saveItem_mono _ _ _ _ _ _ hps

theorem classIds_spatialContainedStep_mono (model : FragmentsGroup) (ri : RelIndex)
    (relName : CN) (expressID : Nat) {sys : String} {cn : CN} {f : String} {id : Nat} :
    ∀ s b, id ∈ classIds s sys cn f →
      id ∈ classIds (spatialContainedStep model ri relName expressID s b) sys cn f := by
  intro s b hp
  have h2 : id ∈ classIds
      (saveItem model "spatialStructures" relName b (some expressID) s) sys cn f :=
    classIds_saveItem_mono _ _ _ _ _ _ hp
  unfold spatialContainedStep
  cases hdb : ri.rels b "IsDecomposedBy" with
  | none => exact h2
  | some dec =>
    refine foldl_pres _ (fun st => id ∈ classIds st sys cn f) dec ?_ _ h2
    intro st a _ hps
    exact classIds_saveItem_mono _ _ _ _ _ _ hps

theorem classIds_spatialEntryStep_mono (model : FragmentsGroup) (ri : RelIndex)
    (cfg : SpatialConfig) {sys : String} {cn : CN} {f : String} {id : Nat} :
    ∀ s b, id ∈ classIds s sys cn f →
      id ∈ classIds (spatialEntryStep model ri cfg s b) sys cn f := by
  intro s b hp
  unfold spatialEntryStep
  by_cases hskip : spatialSkip model cfg b = true
  · rw [if_pos hskip]
    exact hp
  · rw [if_neg hskip]
    have h1 : id ∈ classIds (spatialDecomposesPass model ri cfg s b) sys cn f :=
      classIds_spatialDecomposesPass_mono model ri cfg s b hp
    cases hcr : ri.rels b "ContainsElements" with
    | none => exact h1
    | some rels2 =>
      cases hn : spatialName model cfg b with
      | none => exact h1
      | some rn =>
        refine foldl_pres _ (fun st => id ∈ classIds st sys cn f) rels2 ?_ _ h1
        intro st a _ hps
        exact classIds_spatialContainedStep_mono model ri rn b st a hps

theorem spatialContainedStep_adds (model : FragmentsGroup) (ri : RelIndex) (n : CN)
    (c e d : Nat) {dec : List Nat} {keys r : List Nat} {k : Nat} {f : String}
    (hdec : ri.rels e "IsDecomposedBy" = some dec) (hd : d ∈ dec)
    (hdata : alGet model.data d = some (keys, r)) (hk : k ∈ keys)
    (hf : alGet model.keyFragments k = some f) :
    ∀ s, d ∈ classIds (spatialContainedStep model ri n c s e)
      "spatialStructures" n f := by
  intro s
  unfold spatialContainedStep
  rw [hdec]
  refine foldl_estab _ (fun st => d ∈ classIds st "spatialStructures" n f)
    (fun _ => True) dec d hd (fun _ _ _ => trivial) ?_ ?_ _ trivial
  · intro st _
    exact classIds_saveItem_adds model "spatialStructures" n d (some c) st hdata hk hf
  · intro st b hps
    exact classIds_saveItem_mono _ _ _ _ _ _ hps

theorem spatialEntryStep_adds (model : FragmentsGroup) (ri : RelIndex)
    (cfg : SpatialConfig) (c e d : Nat) (n : CN) {rels2 dec : List Nat}
    {keys r : List Nat} {k : Nat} {f : String}
    (hskip : spatialSkip model cfg c = false)
    (hname : spatialName model cfg c = some n)
    (hrels : ri.rels c "ContainsElements" = some rels2) (he : e ∈ rels2)
    (hdec : ri.rels e "IsDecomposedBy" = some dec) (hd : d ∈ dec)
    (hdata : alGet model.data d = some (keys, r)) (hk : k ∈ keys)
    (hf : alGet model.keyFragments k = some f) :
    ∀ s, d ∈ classIds (spatialEntryStep model ri cfg s c) "spatialStructures" n f := by
  intro s
  unfold spatialEntryStep
  rw [hskip, if_neg Bool.false_ne_true]
  rw [hrels, hname]
  refine foldl_estab _ (fun st => d ∈ classIds st "spatialStructures" n f)
    (fun _ => True) rels2 e he (fun _ _ _ => trivial) ?_ ?_ _ trivial
  · intro st _
    exact spatialContainedStep_adds model ri n c e d hdec hd hdata hk hf st
  · intro st b hps
    exact classIds_spatialContainedStep_mono model ri n c st b hps

/-- C7 (amended): after `bySpatialStructure`'s run, for a container entity
`c` of the relation map (not skipped by `isolate`, with class name `n`
resolved) containing an element `e`, every sub-part `d` of `e` via
`IsDecomposedBy` *that has a data entry with a geometry key resolving
through `keyFragments`* appears in class `n` of the `spatialStructures`
system.  (A sub-part with no resolvable geometry key is silently skipped by
`saveItem` and does not appear.) -/
theorem bySpatialStructure_nesting (model : FragmentsGroup) (ri : RelIndex)
    (cfg : SpatialConfig) (idx : ClassificationIndex) (c e d : Nat) (n : CN)
    {rels2 dec : List Nat} {keys r : List Nat} {k : Nat} {f : String}
    (hc : c ∈ ri.entries)
    (hskip : spatialSkip model cfg c = false)
    (hname : spatialName model cfg c = some n)
    (hrels : ri.rels c "ContainsElements" = some rels2)
    (he : e ∈ rels2)
    (hdec : ri.rels e "IsDecomposedBy" = some dec)
    (hd : d ∈ dec)
    (hdata : alGet model.data d = some (keys, r))
    (hk : k ∈ keys)
    (hf : alGet model.keyFragments k = some f) :
    d ∈ classIds (bySpatialStructureRun model ri cfg idx) "spatialStructures" n f := by
  unfold bySpatialStructureRun
  refine foldl_estab (spatialEntryStep model ri cfg)
    (fun st => d ∈ classIds st "spatialStructures" n f) (fun _ => True)
    ri.entries c hc (fun _ _ _ => trivial) ?_ ?_ idx trivial
  · intro st _
    exact spatialEntryStep_adds model ri cfg c e d n hskip hname hrels he hdec hd
      hdata hk hf st
  · intro st b hps
    exact classIds_spatialEntryStep_mono model ri cfg st b hps

/-- C7, counterexample.  Container `1` (named `Level 3`) contains element
`2`, which is decomposed by sub-part `3`; sub-part `3` has no entry in
`model.data`, so after the run its expressID does **not** appear in class
`Level 3` (the model's only fragment is `f1`), contradicting the claim as
stated for arbitrary sub-parts. -/
theorem bySpatialStructure_nesting_counterexample :
    bySpatialStructureRun
      ⟨[(1, ([10], [0, 0])), (2, ([11], [0, 0]))], [(10, "f1"), (11, "f1")], [],
        [(1, ⟨1, some "Level 3", none⟩), (2, ⟨2, some "E", none⟩)]⟩
      ⟨[1], fun a rel =>
        if a = 1 ∧ rel = "ContainsElements" then some [2]
        else if a = 2 ∧ rel = "IsDecomposedBy" then some [3] else none⟩
      ⟨none, none⟩ [] =
      [("spatialStructures", [(some "Level 3",
        ⟨[("f1", [2])], some "Level 3", some 1⟩)])] ∧
    memClass [("spatialStructures", [(some "Level 3",
        (⟨[("f1", [2])], some "Level 3", some 1⟩ : ClassificationGroup))])]
      "spatialStructures" (some "Level 3") "f1" 3 = false := by
  decide

/-- C7, witness for the amended theorem: the same shape with a resolvable
sub-part `3`, which does end up in class `Level 3` on fragment `f1`. -/
theorem bySpatialStructure_nesting_witness :
    3 ∈ classIds (bySpatialStructureRun
      ⟨[(1, ([10], [0, 0])), (2, ([11], [0, 0])), (3, ([12], [0, 0]))],
        [(10, "f1"), (11, "f1"), (12, "f1")], [],
        [(1, ⟨1, some "Level 3", none⟩), (2, ⟨2, some "E", none⟩)]⟩
      ⟨[1], fun a rel =>
        if a = 1 ∧ rel = "ContainsElements" then some [2]
        else if a = 2 ∧ rel = "IsDecomposedBy" then some [3] else none⟩
      ⟨none, none⟩ []) "spatialStructures" (some "Level 3") "f1" :=
  @bySpatialStructure_nesting
    ⟨[(1, ([10], [0, 0])), (2, ([11], [0, 0])), (3, ([12], [0, 0]))],
      [(10, "f1"), (11, "f1"), (12, "f1")], [],
      [(1, ⟨1, some "Level 3", none⟩), (2, ⟨2, some "E", none⟩)]⟩
    ⟨[1], fun a rel =>
      if a = 1 ∧ rel = "ContainsElements" then some [2]
      else if a = 2 ∧ rel = "IsDecomposedBy" then some [3] else none⟩
    ⟨none, none⟩ [] 1 2 3 (some "Level 3") [2] [3] [12] [0, 0] 12 "f1"
    (by decide) (by decide) (by decide) (by decide) (by decide) (by decide)
    (by decide) (by decide) (by decide) (by decide)
